import Mathlib

/-!
Verification of the go.notify repository's GNTP protocol engine, image
normalizer, and notifier facade against its natural-language specification.

The Go sources are shallowly embedded: bytes are natural numbers below 256,
byte slices are lists, Go's fallible functions return Except values, and the
standard-library block ciphers and hashes are abstracted as families of
functions satisfying the interface contracts the Go code relies on
(fixed block size, encrypt/decrypt inverse on full blocks, fixed digest
length).  MD5 is additionally implemented concretely for the test vectors.
-/

namespace GoNotify

/-- Error values of package gntp (gntp/error.go, gntp/gntp.go var block).
The constructor emptyCiphertext marks the index-out-of-range panic that
Info.Decrypt would hit on an empty buffer with a cipher present. -/
inductive GErr where
  | protocol
  | hash
  | encryption
  | keyLength
  | password
  | pkcs7
  | emptyCiphertext
  deriving DecidableEq, Repr

/-- Decidable equality for Except results, so concrete runs of the embedded
functions can be checked by decide. -/
instance exceptDecEq {ε α : Type} [DecidableEq ε] [DecidableEq α] :
    DecidableEq (Except ε α) := fun a b =>
  match a, b with
  | .ok x, .ok y =>
    if h : x = y then isTrue (by rw [h]) else
      isFalse (fun hh => h (Except.ok.inj hh))
  | .error x, .error y =>
    if h : x = y then isTrue (by rw [h]) else
      isFalse (fun hh => h (Except.error.inj hh))
  | .ok _, .error _ => isFalse (fun hh => Except.noConfusion hh)
  | .error _, .ok _ => isFalse (fun hh => Except.noConfusion hh)

/-- The contract of Go's cipher.Block interface: a block size and a pair of
single-block transformations. -/
structure Block where
  blockSize : Nat
  encryptBlock : List Nat → List Nat
  decryptBlock : List Nat → List Nat

/-- The properties of a cipher.Block that crypto/cipher's CBC mode relies on:
a positive block size that fits in a byte, length preservation, and
decryptBlock inverting encryptBlock on full blocks. -/
structure LawfulBlock (c : Block) : Prop where
  pos : 0 < c.blockSize
  le255 : c.blockSize ≤ 255
  enc_length : ∀ x : List Nat, x.length = c.blockSize → (c.encryptBlock x).length = c.blockSize
  dec_enc : ∀ x : List Nat, x.length = c.blockSize → c.decryptBlock (c.encryptBlock x) = x

/-- Pointwise xor of two byte lists (truncating to the shorter). -/
def zipXor (a b : List Nat) : List Nat := List.zipWith (fun x y => x ^^^ y) a b

/-- Fuel-driven chunking worker; the fuel is always at least the list
length, so the middle branch is never reached from toBlocks. -/
def toBlocksFuel (bs : Nat) : Nat → List Nat → List (List Nat)
  | _, [] => []
  | 0, x :: xs => [x :: xs]
  | fuel + 1, x :: xs => (x :: xs.take (bs - 1)) :: toBlocksFuel bs fuel (xs.drop (bs - 1))

/-- Split a byte list into consecutive chunks of the block size (the final
chunk may be short).  This is how CryptBlocks walks its buffer. -/
def toBlocks (bs : Nat) (l : List Nat) : List (List Nat) := toBlocksFuel bs l.length l

/-- CBC encryption over a list of blocks (crypto/cipher cbcEncrypter):
each plaintext block is xored with the previous ciphertext block (the IV
first) and then block-encrypted. -/
def cbcEncBlocks (enc : List Nat → List Nat) : List Nat → List (List Nat) → List (List Nat)
  | _, [] => []
  | prev, b :: rest =>
    let c := enc (zipXor b prev)
    c :: cbcEncBlocks enc c rest

/-- CBC decryption over a list of blocks (crypto/cipher cbcDecrypter):
each ciphertext block is block-decrypted and xored with the previous
ciphertext block (the IV first). -/
def cbcDecBlocks (dec : List Nat → List Nat) : List Nat → List (List Nat) → List (List Nat)
  | _, [] => []
  | prev, b :: rest => zipXor (dec b) prev :: cbcDecBlocks dec b rest

/-- cipher.NewCBCEncrypter(c, iv).CryptBlocks over a flat byte buffer. -/
def cbcEncrypt (c : Block) (iv data : List Nat) : List Nat :=
  (cbcEncBlocks c.encryptBlock iv (toBlocks c.blockSize data)).flatten

/-- cipher.NewCBCDecrypter(c, iv).CryptBlocks over a flat byte buffer. -/
def cbcDecrypt (c : Block) (iv data : List Nat) : List Nat :=
  (cbcDecBlocks c.decryptBlock iv (toBlocks c.blockSize data)).flatten

/-- GNTP information line record (gntp/gntp.go type Info).  The cipher field
is the private cipher.Block handle. -/
structure Info where
  Version : String
  MessageType : String
  EncryptionAlgorithm : Int
  IV : List Nat
  HashAlgorithm : Int
  KeyHash : List Nat
  Salt : List Nat
  cipher : Option Block

/-- Info.Encrypt (gntp/gntp.go:753-767): identity without a cipher, otherwise
pad with PKCS #7 to the next multiple of the block size (always at least one
padding byte; Go writes byte(len(src)-len(data)), hence the mod 256) and
CBC-encrypt. -/
def Info.Encrypt (i : Info) (data : List Nat) : List Nat :=
  match i.cipher with
  | none => data
  | some c =>
    let bs := c.blockSize
    let padLen := data.length / bs * bs + bs - data.length
    let src := data ++ List.replicate padLen (padLen % 256)
    cbcEncrypt c i.IV src

/-- Info.Decrypt (gntp/gntp.go:731-750): identity without a cipher, otherwise
CBC-decrypt, read the final byte v, reject when v exceeds the buffer length
(n := len-int(v); n < 0) or one of the last v bytes differs from v, and strip
the last v bytes on success. -/
def Info.Decrypt (i : Info) (data : List Nat) : Except GErr (List Nat) :=
  match i.cipher with
  | none => .ok data
  | some c =>
    let dst := cbcDecrypt c i.IV data
    match dst.getLast? with
    | none => .error .emptyCiphertext
    | some v =>
      if dst.length < v then .error .pkcs7
      else if (dst.drop (dst.length - v)).all (fun x => x = v) then
        .ok (dst.take (dst.length - v))
      else .error .pkcs7

/-- The four hash constructors of HashAlgorithm.New (crypto/md5, sha1,
sha256, sha512), abstracted as byte-list digest functions. -/
structure HashFamily where
  md5 : List Nat → List Nat
  sha1 : List Nat → List Nat
  sha256 : List Nat → List Nat
  sha512 : List Nat → List Nat

/-- The interface facts about the four standard digests that the gntp code
relies on: digest lengths 16/20/32/64 and byte-valued output. -/
structure GoodHashFamily (F : HashFamily) : Prop where
  md5_len : ∀ m, (F.md5 m).length = 16
  sha1_len : ∀ m, (F.sha1 m).length = 20
  sha256_len : ∀ m, (F.sha256 m).length = 32
  sha512_len : ∀ m, (F.sha512 m).length = 64
  md5_lt : ∀ m, ∀ b ∈ F.md5 m, b < 256
  sha1_lt : ∀ m, ∀ b ∈ F.sha1 m, b < 256
  sha256_lt : ∀ m, ∀ b ∈ F.sha256 m, b < 256
  sha512_lt : ∀ m, ∀ b ∈ F.sha512 m, b < 256

/-- HashAlgorithm.New (gntp/gntp.go:426-440); the HashAlgorithm values are
Go ints: MD5 = 0, SHA1 = 1, SHA256 = 2, SHA512 = 3, anything else ErrHash. -/
def hashNew (F : HashFamily) (ha : Int) : Except GErr (List Nat → List Nat) :=
  if ha = 0 then .ok F.md5
  else if ha = 1 then .ok F.sha1
  else if ha = 2 then .ok F.sha256
  else if ha = 3 then .ok F.sha512
  else .error .hash

/-- The three cipher constructors used by EncryptionAlgorithm.New
(crypto/des DES and TripleDES, crypto/aes), abstracted as functions from the
(already truncated) key to a cipher.Block. -/
structure CipherFamily where
  desNew : List Nat → Block
  tdesNew : List Nat → Block
  aesNew : List Nat → Block

/-- The interface facts about the standard ciphers: every constructed block
is lawful, DES and 3DES have block size 8, AES has block size 16. -/
structure GoodCipherFamily (Cf : CipherFamily) : Prop where
  des_lawful : ∀ k, LawfulBlock (Cf.desNew k)
  tdes_lawful : ∀ k, LawfulBlock (Cf.tdesNew k)
  aes_lawful : ∀ k, LawfulBlock (Cf.aesNew k)
  des_bs : ∀ k, (Cf.desNew k).blockSize = 8
  tdes_bs : ∀ k, (Cf.tdesNew k).blockSize = 8
  aes_bs : ∀ k, (Cf.aesNew k).blockSize = 16

/-- EncryptionAlgorithm.New (gntp/gntp.go:454-476); the EncryptionAlgorithm
values are Go ints: NONE = 0, DES = 1, TDES = 2, AES = 3.  NONE yields no
cipher; otherwise the key is required to be at least n bytes (8 for DES, 24
for 3DES and AES) and truncated to exactly n. -/
def encryptionNew (Cf : CipherFamily) (ea : Int) (key : List Nat) : Except GErr (Option Block) :=
  if ea = 0 then .ok none
  else if ea = 1 then
    if key.length < 8 then .error .keyLength else .ok (some (Cf.desNew (key.take 8)))
  else if ea = 2 then
    if key.length < 24 then .error .keyLength else .ok (some (Cf.tdesNew (key.take 24)))
  else if ea = 3 then
    if key.length < 24 then .error .keyLength else .ok (some (Cf.aesNew (key.take 24)))
  else .error .encryption

/-- Info.SetPassword (gntp/gntp.go:772-815).  The password is a byte list;
entropy models crypto/rand.Read, consumed first (16 bytes) by a fresh salt
and then (blockSize bytes) by a fresh IV.  An empty password clears IV,
KeyHash, Salt and the cipher; otherwise k = H(password||salt),
KeyHash = H(k), and with encryption configured the cipher is built from k
and the IV regenerated unless it already has the block length. -/
def Info.SetPassword (F : HashFamily) (Cf : CipherFamily) (i : Info)
    (password entropy : List Nat) : Except GErr Info :=
  if password = [] then
    .ok { i with IV := [], KeyHash := [], Salt := [], cipher := none }
  else
    let freshSalt := i.Salt.length = 0
    let salt := if freshSalt then entropy.take 16 else i.Salt
    match hashNew F i.HashAlgorithm with
    | .error e => .error e
    | .ok H =>
      let k := H (password ++ salt)
      let keyHash := H k
      if i.EncryptionAlgorithm ≠ 0 then
        match encryptionNew Cf i.EncryptionAlgorithm k with
        | .error e => .error e
        | .ok none => .ok { i with Salt := salt, KeyHash := keyHash, cipher := none }
        | .ok (some c) =>
          let iv :=
            if i.IV.length = c.blockSize then i.IV
            else (entropy.drop (if freshSalt then 16 else 0)).take c.blockSize
          .ok { i with Salt := salt, KeyHash := keyHash, cipher := some c, IV := iv }
      else
        .ok { i with Salt := salt, KeyHash := keyHash }

/-! Info line codec (gntp/gntp.go Info.String and ParseInfo).  Lines are
lists of characters; Go string operations are modelled over them.
strings.ToUpper and strings.TrimSpace are modelled on their ASCII
behaviour, which covers every character the codec emits or accepts. -/

/-- The characters unicode.IsSpace recognizes within ASCII. -/
def isSpaceChar (c : Char) : Bool :=
  c.toNat = 32 || c.toNat = 9 || c.toNat = 10 || c.toNat = 13

/-- strings.ToUpper on one ASCII character. -/
def goToUpperChar (c : Char) : Char :=
  if 97 ≤ c.toNat ∧ c.toNat ≤ 122 then Char.ofNat (c.toNat - 32) else c

/-- strings.ToUpper. -/
def goToUpper (l : List Char) : List Char := l.map goToUpperChar

/-- strings.TrimSpace: drop leading and trailing white space. -/
def goTrimSpace (l : List Char) : List Char :=
  ((l.dropWhile isSpaceChar).reverse.dropWhile isSpaceChar).reverse

/-- Worker for goIndex: position of the first occurrence of a character. -/
def goIndexAux (ch : Char) : List Char → Option Nat
  | [] => none
  | c :: rest => if c = ch then some 0 else (goIndexAux ch rest).map (· + 1)

/-- strings.IndexRune: position of the first occurrence, none when absent
(Go returns -1; byte and rune indices agree on the ASCII lines the codec
handles). -/
def goIndex (l : List Char) (ch : Char) : Option Nat := goIndexAux ch l

/-- One uppercase hexadecimal digit, as fmt %X prints a nibble. -/
def hexDigitChar (n : Nat) : Char :=
  if n = 0 then '0' else if n = 1 then '1' else if n = 2 then '2' else if n = 3 then '3'
  else if n = 4 then '4' else if n = 5 then '5' else if n = 6 then '6' else if n = 7 then '7'
  else if n = 8 then '8' else if n = 9 then '9' else if n = 10 then 'A' else if n = 11 then 'B'
  else if n = 12 then 'C' else if n = 13 then 'D' else if n = 14 then 'E' else 'F'

/-- fmt %X of one byte: two uppercase hex digits. -/
def byteToHex (b : Nat) : List Char := [hexDigitChar (b / 16), hexDigitChar (b % 16)]

/-- fmt %X of a byte slice. -/
def bytesToHex (bs : List Nat) : List Char := (bs.map byteToHex).flatten

/-- The value of a hex digit as encoding/hex accepts it (either case). -/
def hexVal (c : Char) : Option Nat :=
  if 48 ≤ c.toNat ∧ c.toNat ≤ 57 then some (c.toNat - 48)
  else if 65 ≤ c.toNat ∧ c.toNat ≤ 70 then some (c.toNat - 55)
  else if 97 ≤ c.toNat ∧ c.toNat ≤ 102 then some (c.toNat - 87)
  else none

/-- hex.DecodeString: pairs of digits, high nibble first; odd length or a
bad digit is an error. -/
def hexDecode : List Char → Option (List Nat)
  | [] => some []
  | [_] => none
  | a :: b :: rest =>
    match hexVal a, hexVal b, hexDecode rest with
    | some x, some y, some tail => some ((x * 16 + y) :: tail)
    | _, _, _ => none

/-- A clean segment of an info line: every character is stable under
uppercasing and is not white space. -/
def cleanSeg (s : List Char) : Prop :=
  ∀ c ∈ s, goToUpperChar c = c ∧ isSpaceChar c = false

instance cleanSegDecidable (s : List Char) : Decidable (cleanSeg s) := by
  unfold cleanSeg
  infer_instance

/-- EncryptionAlgorithm.String (gntp/gntp.go:478-490).  The default branch
formats the numeric value; it is abbreviated here since no supported value
reaches it. -/
def eaName (ea : Int) : List Char :=
  if ea = 0 then "NONE".toList
  else if ea = 1 then "DES".toList
  else if ea = 2 then "3DES".toList
  else if ea = 3 then "AES".toList
  else "EncryptionAlgorithm(?)".toList

/-- Modelled from the spec: HashAlgorithm.String is produced by the
stringer go:generate directive (gntp_string.go, absent from the sources);
spec section 4.3 gives the emitted token names MD5, SHA1, SHA256 and
SHA512.  The default branch formats the numeric value and is abbreviated
since no supported value reaches it. -/
def haName (ha : Int) : List Char :=
  if ha = 0 then "MD5".toList
  else if ha = 1 then "SHA1".toList
  else if ha = 2 then "SHA256".toList
  else if ha = 3 then "SHA512".toList
  else "HashAlgorithm(?)".toList

/-- Info.String (gntp/gntp.go:817-829): the encrypted form when an
encryption algorithm is set, the authenticated form when a key hash is
present, and the plain form otherwise. -/
def Info.toLine (i : Info) : List Char :=
  if i.EncryptionAlgorithm ≠ 0 then
    "GNTP/1.0 ".toList ++ i.MessageType.toList ++ " ".toList ++
      eaName i.EncryptionAlgorithm ++ ":".toList ++ bytesToHex i.IV ++ " ".toList ++
      haName i.HashAlgorithm ++ ":".toList ++ bytesToHex i.KeyHash ++ ".".toList ++
      bytesToHex i.Salt
  else if i.KeyHash.length ≠ 0 then
    "GNTP/1.0 ".toList ++ i.MessageType.toList ++ " ".toList ++ eaName 0 ++ " ".toList ++
      haName i.HashAlgorithm ++ ":".toList ++ bytesToHex i.KeyHash ++ ".".toList ++
      bytesToHex i.Salt
  else
    "GNTP/1.0 ".toList ++ i.MessageType.toList ++ " ".toList ++ eaName i.EncryptionAlgorithm

/-- The encryption token of ParseInfo (gntp/gntp.go:632-665): either NONE,
or name:iv with the IV hex-decoded; NONE with an IV is a protocol error
and an unknown name parses as the algorithm value -1. -/
def parseEncSegment (eaID : List Char) : Except GErr (Int × List Nat) :=
  match goIndex eaID ':' with
  | none => if eaID = "NONE".toList then .ok (0, []) else .error .protocol
  | some y =>
    match hexDecode (eaID.drop (y + 1)) with
    | none => .error .protocol
    | some iv =>
      let tag := eaID.take y
      if tag = "NONE".toList then .error .protocol
      else if tag = "DES".toList then .ok (1, iv)
      else if tag = "3DES".toList then .ok (2, iv)
      else if tag = "AES".toList then .ok (3, iv)
      else .ok (-1, iv)

/-- The hash-name switch of ParseInfo (gntp/gntp.go:672-683); an unknown
name parses as the algorithm value -1. -/
def parseHashName (s : List Char) : Int :=
  if s = "MD5".toList then 0
  else if s = "SHA1".toList then 1
  else if s = "SHA256".toList then 2
  else if s = "SHA512".toList then 3
  else -1

/-- The portion of ParseInfo after the version and message type have been
read and the line split at the encryption token (gntp/gntp.go:640-724):
parse the encryption token, then the hash segment when one is present,
verify the key hash against the password and construct the cipher. -/
def parseTail (F : HashFamily) (Cf : CipherFamily) (version mt : String)
    (eaID l4 : List Char) (password : List Nat) : Except GErr Info :=
  match parseEncSegment eaID with
  | .error e => .error e
  | .ok (ea, iv) =>
    if l4 = [] then .ok ⟨version, mt, ea, iv, 0, [], [], none⟩
    else
      match goIndex l4 ':' with
      | none => .error .protocol
      | some y =>
        let ha := parseHashName (l4.take y)
        let l5 := l4.drop (y + 1)
        match goIndex l5 '.' with
        | none => .error .protocol
        | some z =>
          match hexDecode (l5.take z) with
          | none => .error .protocol
          | some kh =>
            match hexDecode (l5.drop (z + 1)) with
            | none => .error .protocol
            | some salt =>
              match hashNew F ha with
              | .error e => .error e
              | .ok H =>
                let k := H (password ++ salt)
                if H k ≠ kh then .error .password
                else if ea ≠ 0 then
                  match encryptionNew Cf ea k with
                  | .error e => .error e
                  | .ok none => .ok ⟨version, mt, ea, iv, ha, kh, salt, none⟩
                  | .ok (some c) =>
                    if iv.length ≠ c.blockSize then .error .protocol
                    else .ok ⟨version, mt, ea, iv, ha, kh, salt, some c⟩
                else .ok ⟨version, mt, ea, iv, ha, kh, salt, none⟩

/-- ParseInfo (gntp/gntp.go:602-728): uppercase the line, require the
GNTP/ prefix and version 1.0, read the message type, then the encryption
token, then (when present) the hash segment, verifying the key hash
against the password and constructing the cipher from the derived key. -/
def ParseInfo (F : HashFamily) (Cf : CipherFamily) (line : List Char)
    (password : List Nat) : Except GErr Info :=
  let l0 := goToUpper line
  if l0.take 5 = "GNTP/".toList then
    let l1 := l0.drop 5
    match goIndex l1 ' ' with
    | none => .error .protocol
    | some x1 =>
      let version := String.mk (l1.take x1)
      if version = "1.0" then
        let l2 := goTrimSpace (l1.drop x1)
        match goIndex l2 ' ' with
        | none => .error .protocol
        | some x2 =>
          let mt := String.mk (l2.take x2)
          if mt = "REGISTER" ∨ mt = "NOTIFY" ∨ mt = "-OK" ∨ mt = "-ERROR" ∨
              mt = "-CALLBACK" then
            let l3 := goTrimSpace (l2.drop x2)
            match goIndex l3 ' ' with
            | none =>
              if l3 = "NONE".toList then .ok ⟨version, mt, 0, [], 0, [], [], none⟩
              else .error .protocol
            | some x3 =>
              parseTail F Cf version mt (l3.take x3) (goTrimSpace (l3.drop x3)) password
          else .error .protocol
      else .error .protocol
  else .error .protocol

/-! Concrete instances of the hash and cipher interfaces, used to evaluate
the theorems on explicit inputs. -/

/-- A digest function of fixed length n and constant content v. -/
def constHash (n v : Nat) : List Nat → List Nat := fun _ => List.replicate n v

/-- A hash family with the digest lengths of MD5/SHA-1/SHA-256/SHA-512. -/
def testHashFamily : HashFamily :=
  ⟨constHash 16 1, constHash 20 1, constHash 32 1, constHash 64 1⟩

/-- The identity block cipher of a given block size. -/
def idBlock (bs : Nat) : Block := ⟨bs, id, id⟩

/-- A cipher family with the block sizes of DES/3DES/AES. -/
def testCipherFamily : CipherFamily :=
  ⟨fun _ => idBlock 8, fun _ => idBlock 8, fun _ => idBlock 16⟩

/-- A fresh Info record as the client builds it: version 1.0, NOTIFY, AES
encryption, SHA256 hash, no salt, IV, key hash or cipher yet. -/
def c1i0 : Info := ⟨"1.0", "NOTIFY", 3, [], 2, [], [], none⟩

/-- The bytes of the string password. -/
def pwdBytes : List Nat := [112, 97, 115, 115, 119, 111, 114, 100]

/-- Thirty-two bytes of entropy for salt and IV generation. -/
def c1entropy : List Nat := List.range 32

/-- The Info record SetPassword produces from c1i0 with the test families. -/
def c1out : Info :=
  ⟨"1.0", "NOTIFY", 3, (List.range 32).drop 16, 2, List.replicate 32 1,
    List.range 16, some (idBlock 16)⟩

/-- A sixteen-byte plaintext. -/
def c1b : List Nat := List.replicate 16 7

/-- A fresh Info record with an empty Version, NONE encryption and MD5. -/
def c3i0 : Info := ⟨"", "NOTIFY", 0, [], 0, [], [], none⟩

/-- The Info record SetPassword produces from c3i0 with the test families:
salt from the entropy, KeyHash the constant MD5 digest. -/
def c3out : Info := ⟨"", "NOTIFY", 0, [], 0, List.replicate 16 1, List.range 16, none⟩

/-- An Info record holding a 16-byte block cipher and an all-zero IV. -/
def c2info : Info :=
  ⟨"1.0", "-OK", 3, List.replicate 16 0, 2, [], [], some (idBlock 16)⟩

/-- A two-block ciphertext whose CBC decryption under c2info ends in
seventeen bytes of value 17: a pad count above the block size. -/
def c2data : List Nat :=
  (List.replicate 15 0 ++ [17]) ++ (List.replicate 15 17 ++ [0])

/-! MD5 (crypto/md5), the concrete digest the key-derivation test vector
of the spec uses.  Words are Nats reduced modulo 2^32. -/

/-- A 32-bit word: the value modulo 2^32. -/
def w32 (x : Nat) : Nat := x % 4294967296

/-- Left rotation of a 32-bit word by c bits (math/bits RotateLeft32). -/
def rotl32 (x c : Nat) : Nat := w32 (x <<< c) ||| (x >>> (32 - c))

/-- The 64 MD5 sine constants, floor(abs(sin(i+1)) * 2^32) (RFC 1321). -/
def md5K : List Nat :=
  [3614090360, 3905402710, 606105819, 3250441966, 4118548399, 1200080426, 2821735955,
   4249261313, 1770035416, 2336552879, 4294925233, 2304563134, 1804603682, 4254626195,
   2792965006, 1236535329, 4129170786, 3225465664, 643717713, 3921069994, 3593408605,
   38016083, 3634488961, 3889429448, 568446438, 3275163606, 4107603335, 1163531501,
   2850285829, 4243563512, 1735328473, 2368359562, 4294588738, 2272392833, 1839030562,
   4259657740, 2763975236, 1272893353, 4139469664, 3200236656, 681279174, 3936430074,
   3572445317, 76029189, 3654602809, 3873151461, 530742520, 3299628645, 4096336452,
   1126891415, 2878612391, 4237533241, 1700485571, 2399980690, 4293915773, 2240044497,
   1873313359, 4264355552, 2734768916, 1309151649, 4149444226, 3174756917, 718787259,
   3951481745]

/-- The 64 MD5 per-round rotation amounts (RFC 1321). -/
def md5S : List Nat :=
  [7, 12, 17, 22, 7, 12, 17, 22, 7, 12, 17, 22, 7, 12, 17, 22,
   5, 9, 14, 20, 5, 9, 14, 20, 5, 9, 14, 20, 5, 9, 14, 20,
   4, 11, 16, 23, 4, 11, 16, 23, 4, 11, 16, 23, 4, 11, 16, 23,
   6, 10, 15, 21, 6, 10, 15, 21, 6, 10, 15, 21, 6, 10, 15, 21]

/-- The MD5 round function and message-word index for round i: F/G/H/I
with schedules i, 5i+1, 3i+5 and 7i mod 16.  Complement is xor with the
all-ones 32-bit word. -/
def md5FG (i B C D : Nat) : Nat × Nat :=
  if i < 16 then ((B &&& C) ||| ((B ^^^ 4294967295) &&& D), i)
  else if i < 32 then ((D &&& B) ||| ((D ^^^ 4294967295) &&& C), (5 * i + 1) % 16)
  else if i < 48 then (B ^^^ C ^^^ D, (3 * i + 5) % 16)
  else (C ^^^ (B ||| (D ^^^ 4294967295)), (7 * i) % 16)

/-- One MD5 round on the running state (A, B, C, D). -/
def md5Step (M : List Nat) (st : Nat × Nat × Nat × Nat) (i : Nat) : Nat × Nat × Nat × Nat :=
  let A := st.1; let B := st.2.1; let C := st.2.2.1; let D := st.2.2.2
  let fg := md5FG i B C D
  let x := w32 (A + fg.1 + md5K.getD i 0 + M.getD fg.2 0)
  (D, w32 (B + rotl32 x (md5S.getD i 0)), B, C)

/-- A little-endian 32-bit word from up to four bytes. -/
def word32le (w : List Nat) : Nat :=
  w.getD 0 0 + 256 * (w.getD 1 0 + 256 * (w.getD 2 0 + 256 * w.getD 3 0))

/-- One 64-byte MD5 block: split into sixteen little-endian words, run the
64 rounds, add the result into the incoming state. -/
def md5Chunk (st : Nat × Nat × Nat × Nat) (chunk : List Nat) : Nat × Nat × Nat × Nat :=
  let M := (toBlocks 4 chunk).map word32le
  let r := (List.range 64).foldl (md5Step M) st
  (w32 (st.1 + r.1), w32 (st.2.1 + r.2.1), w32 (st.2.2.1 + r.2.2.1), w32 (st.2.2.2 + r.2.2.2))

/-- A 32-bit word as four little-endian bytes. -/
def u32le (x : Nat) : List Nat := [x % 256, x / 256 % 256, x / 65536 % 256, x / 16777216 % 256]

/-- A 64-bit word as eight little-endian bytes. -/
def u64le (x : Nat) : List Nat :=
  [x % 256, x / 256 % 256, x / 65536 % 256, x / 16777216 % 256,
   x / 4294967296 % 256, x / 1099511627776 % 256, x / 281474976710656 % 256,
   x / 72057594037927936 % 256]

/-- MD5 padding: a 0x80 byte, zeros to 56 mod 64, then the bit length as a
little-endian 64-bit word. -/
def md5pad (msg : List Nat) : List Nat :=
  msg ++ 128 :: List.replicate ((119 - msg.length % 64) % 64) 0 ++
    u64le ((msg.length * 8) % 18446744073709551616)

/-- md5.Sum: pad, fold the compression function over the 64-byte blocks
from the standard initial state, and serialize the four state words
little-endian. -/
def md5Sum (msg : List Nat) : List Nat :=
  let r := (toBlocks 64 (md5pad msg)).foldl md5Chunk
    (1732584193, 4023233417, 2562383102, 271733878)
  u32le r.1 ++ u32le r.2.1 ++ u32le r.2.2.1 ++ u32le r.2.2.2

/-- A hash family whose MD5 digest is the real md5.Sum; the other three
slots are stand-ins, unused by any line naming MD5. -/
def md5OnlyFamily : HashFamily :=
  ⟨md5Sum, constHash 20 1, constHash 32 1, constHash 64 1⟩

/-- The key-derivation test line of the spec: AES encryption with a
one-byte IV and the MD5 key hash of password "password" with salt
0123456789. -/
def c5line : List Char :=
  "GNTP/1.0 REGISTER AES:FF MD5:B80A1CD3F719006F932A3FAAC90FEEA5.0123456789".toList

/-- The key-hash bytes of c5line. -/
def c5kh : List Nat :=
  [0xB8, 0x0A, 0x1C, 0xD3, 0xF7, 0x19, 0x00, 0x6F,
   0x93, 0x2A, 0x3F, 0xAA, 0xC9, 0x0F, 0xEE, 0xA5]

/-- The salt bytes of c5line. -/
def c5salt : List Nat := [0x01, 0x23, 0x45, 0x67, 0x89]

/-! Client callback-connection state (gntp/gntp.go Client, Reset,
callback).  Connections are identified by numbers; the cb field is the
client's cb map (its key set), closed records connections whose Close has
been called, and ctxGen stands for the identity of the cancellation scope. -/

structure ClientState where
  cb : List Nat
  closed : List Nat
  ctxGen : Nat
  deriving DecidableEq, Repr

/-- Client.Reset (gntp/gntp.go:112-122): under the mutex, close every
connection in the cb map, cancel the scope, and install a fresh one.
No entry is removed from the cb map. -/
def Client.Reset (c : ClientState) : ClientState :=
  { c with closed := c.closed ++ c.cb, ctxGen := c.ctxGen + 1 }

/-- The deferred cleanup of Client.callback (gntp/gntp.go:337-343): close
the connection and delete it from the cb map.  Each exiting callback
reader runs this once. -/
def Client.callbackCleanup (c : ClientState) (conn : Nat) : ClientState :=
  { c with closed := c.closed ++ [conn], cb := c.cb.erase conn }

/-- A client state with one connection waiting for a socket callback. -/
def c8state : ClientState := ⟨[0], [], 0⟩

/-! Image normalizer (internal/util/util.go Convert).  An image is its
pixel type together with its bounds; Convert in the source handles CMYK,
Gray, Gray16 and NRGBA and rejects every other type. -/

structure GoRect where
  x0 : Int
  y0 : Int
  x1 : Int
  y1 : Int
  deriving DecidableEq, Repr

inductive GoImage where
  | cmyk (r : GoRect)
  | gray (r : GoRect)
  | gray16 (r : GoRect)
  | nrgba (r : GoRect)
  | nrgba64 (r : GoRect)
  | nycbcra (r : GoRect)
  | paletted (r : GoRect)
  | rgba (r : GoRect)
  | rgba64 (r : GoRect)
  | ycbcr (r : GoRect)
  | alpha (r : GoRect)
  deriving DecidableEq, Repr

def GoImage.bounds : GoImage → GoRect
  | .cmyk r => r
  | .gray r => r
  | .gray16 r => r
  | .nrgba r => r
  | .nrgba64 r => r
  | .nycbcra r => r
  | .paletted r => r
  | .rgba r => r
  | .rgba64 r => r
  | .ycbcr r => r
  | .alpha r => r

inductive ConvErr where
  | unsupportedImage
  deriving DecidableEq, Repr

/-- util.Convert (internal/util/util.go:36-57): Gray and NRGBA are returned
unchanged, CMYK is drawn into a fresh NRGBA of the same bounds, Gray16 into
a fresh Gray; every other pixel type takes the default branch and fails
with the unsupported-image error. -/
def Convert : GoImage → Except ConvErr GoImage
  | .cmyk r => .ok (.nrgba r)
  | .gray r => .ok (.gray r)
  | .gray16 r => .ok (.gray r)
  | .nrgba r => .ok (.nrgba r)
  | _ => .error .unsupportedImage

/-! GNTP notifier facade (gntp/impl.go).  Icons and option values are
dynamically typed in Go; GoValue is the tagged variant of the types the
facade inspects.  Floats carry no payload since only their type tag ever
matters to the code. -/

inductive GoValue where
  | vnil
  | vstring (s : String)
  | vbool (b : Bool)
  | vint (n : Int)
  | vint8 (n : Int)
  | vint16 (n : Int)
  | vint32 (n : Int)
  | vint64 (n : Int)
  | vuint (n : Nat)
  | vuint8 (n : Nat)
  | vuint16 (n : Nat)
  | vuint32 (n : Nat)
  | vuint64 (n : Nat)
  | vfloat32
  | vfloat64
  deriving DecidableEq, Repr

def GoValue.isString : GoValue → Bool
  | .vstring _ => true
  | _ => false

def GoValue.isBool : GoValue → Bool
  | .vbool _ => true
  | _ => false

def GoValue.isIntLike : GoValue → Bool
  | .vint _ | .vint8 _ | .vint16 _ | .vint32 _ | .vint64 _ => true
  | .vuint _ | .vuint8 _ | .vuint16 _ | .vuint32 _ | .vuint64 _ => true
  | _ => false

/-- Notification (gntp/gntp.go:493-507). -/
structure Notification where
  Name : String
  DisplayName : String
  Enabled : Bool
  ID : String
  Title : String
  Text : String
  Sticky : Bool
  Priority : Int
  Icon : GoValue
  CoalescingID : String
  CallbackContext : String
  CallbackContextType : String
  CallbackTarget : String
  deriving DecidableEq, Repr

/-- The Go zero value of Notification (new(Notification)). -/
def newNotification : Notification :=
  ⟨"", "", false, "", "", "", false, 0, .vnil, "", "", "", ""⟩

/-- Errors surfaced by the facade: notify.ErrEvent, the
fmt.Errorf type-mismatch errors naming the expected type, and the
int32-overflow error of the priority option. -/
inductive FacadeErr where
  | unknownEvent
  | typeMismatch (key expected : String)
  | overflow (key : String)
  deriving DecidableEq, Repr

/-- Association lookup standing for a Go map read (m[k]). -/
def assocLookup {α : Type} : List (String × α) → String → Option α
  | [], _ => none
  | (k2, v) :: rest, k => if k2 = k then some v else assocLookup rest k

/-- Association update standing for a Go map write (m[k] = v): replace the
binding in place or append a new one. -/
def assocInsert {α : Type} : List (String × α) → String → α → List (String × α)
  | [], k, v => [(k, v)]
  | (k2, v2) :: rest, k, v =>
    if k2 = k then (k2, v) :: rest else (k2, v2) :: assocInsert rest k v

/-- notifier.Notify (gntp/impl.go): look the event up (ErrEvent when
absent), copy the template by value, set Title and Text on the copy, and
dispatch it.  The stored map is returned unchanged alongside the
dispatched clone. -/
def notifierNotify (ev : List (String × Notification)) (event title body : String) :
    Except FacadeErr (Notification × List (String × Notification)) :=
  match assocLookup ev event with
  | none => .error .unknownEvent
  | some t => .ok ({ t with Title := title, Text := body }, ev)

/-- The template notifier.Register starts from: the event name, enabled by
default, carrying the given icon. -/
def baseTemplate (event : String) (icon : GoValue) : Notification :=
  { newNotification with Name := event, Enabled := true, Icon := icon }

/-- i2i of notifier.Register: accept an int64 value when it fits int32. -/
def i2i (i : Int) : Option Int :=
  if -2147483648 ≤ i ∧ i ≤ 2147483647 then some i else none

/-- u2i of notifier.Register: accept a uint64 value when it fits int32. -/
def u2i (u : Nat) : Option Int :=
  if u ≤ 2147483647 then some (u : Int) else none

/-- The gntp:display-name option: a string sets DisplayName, any other
present value is a type mismatch naming string. -/
def applyDisplayName (opts : List (String × GoValue)) (n : Notification) :
    Except FacadeErr Notification :=
  match assocLookup opts "gntp:display-name" with
  | none => .ok n
  | some (.vstring s) => .ok { n with DisplayName := s }
  | some _ => .error (.typeMismatch "gntp:display-name" "string")

/-- The gntp:enabled option: a bool sets Enabled, any other present value
is a type mismatch naming bool. -/
def applyEnabled (opts : List (String × GoValue)) (n : Notification) :
    Except FacadeErr Notification :=
  match assocLookup opts "gntp:enabled" with
  | none => .ok n
  | some (.vbool b) => .ok { n with Enabled := b }
  | some _ => .error (.typeMismatch "gntp:enabled" "bool")

/-- The gntp:sticky option: a bool sets Sticky, any other present value is
a type mismatch naming bool. -/
def applySticky (opts : List (String × GoValue)) (n : Notification) :
    Except FacadeErr Notification :=
  match assocLookup opts "gntp:sticky" with
  | none => .ok n
  | some (.vbool b) => .ok { n with Sticky := b }
  | some _ => .error (.typeMismatch "gntp:sticky" "bool")

/-- The gntp:priority option: Go int is taken as is, the sized integer
types go through the int32 range checks, anything else is a type mismatch
naming int. -/
def applyPriority (opts : List (String × GoValue)) (n : Notification) :
    Except FacadeErr Notification :=
  match assocLookup opts "gntp:priority" with
  | none => .ok n
  | some v =>
    match v with
    | .vint m => .ok { n with Priority := m }
    | .vint8 m =>
      match i2i m with
      | some m2 => .ok { n with Priority := m2 }
      | none => .error (.overflow "gntp:priority")
    | .vint16 m =>
      match i2i m with
      | some m2 => .ok { n with Priority := m2 }
      | none => .error (.overflow "gntp:priority")
    | .vint32 m =>
      match i2i m with
      | some m2 => .ok { n with Priority := m2 }
      | none => .error (.overflow "gntp:priority")
    | .vint64 m =>
      match i2i m with
      | some m2 => .ok { n with Priority := m2 }
      | none => .error (.overflow "gntp:priority")
    | .vuint m =>
      match u2i m with
      | some m2 => .ok { n with Priority := m2 }
      | none => .error (.overflow "gntp:priority")
    | .vuint8 m =>
      match u2i m with
      | some m2 => .ok { n with Priority := m2 }
      | none => .error (.overflow "gntp:priority")
    | .vuint16 m =>
      match u2i m with
      | some m2 => .ok { n with Priority := m2 }
      | none => .error (.overflow "gntp:priority")
    | .vuint32 m =>
      match u2i m with
      | some m2 => .ok { n with Priority := m2 }
      | none => .error (.overflow "gntp:priority")
    | .vuint64 m =>
      match u2i m with
      | some m2 => .ok { n with Priority := m2 }
      | none => .error (.overflow "gntp:priority")
    | _ => .error (.typeMismatch "gntp:priority" "int")

/-- The option-validation phase of notifier.Register (gntp/impl.go): the
four recognized keys are applied in source order with early error return;
entries under any other key are never consulted. -/
def buildTemplate (event : String) (icon : GoValue) (opts : List (String × GoValue)) :
    Except FacadeErr Notification :=
  match applyDisplayName opts (baseTemplate event icon) with
  | .error e => .error e
  | .ok n1 =>
    match applyEnabled opts n1 with
    | .error e => .error e
    | .ok n2 =>
      match applySticky opts n2 with
      | .error e => .error e
      | .ok n3 => applyPriority opts n3

/-- notifier.Register (gntp/impl.go): validate the options, store the
built template under the event name (replacing any previous one), and send
a REGISTER request carrying the templates of every registered event. -/
def notifierRegister (ev : List (String × Notification)) (event : String) (icon : GoValue)
    (opts : List (String × GoValue)) :
    Except FacadeErr (List (String × Notification) × List Notification) :=
  match buildTemplate event icon opts with
  | .error e => .error e
  | .ok n =>
    let ev2 := assocInsert ev event n
    .ok (ev2, ev2.map Prod.snd)

/-- The four option keys notifier.Register recognizes, in the order the
source checks them. -/
def gntpOptionKeys : List String :=
  ["gntp:display-name", "gntp:enabled", "gntp:sticky", "gntp:priority"]

/-- A registered template used in concrete facade runs. -/
def c7tmpl : Notification :=
  ⟨"event", "Display", true, "id7", "OldTitle", "OldText", true, 2, .vstring "icon.png",
    "", "ctx", "ctxty", "tgt"⟩

/-! CBC algebra. -/

theorem zipXor_length (a b : List Nat) : (zipXor a b).length = min a.length b.length := by
  simp [zipXor]

theorem zipXor_zipXor_cancel (a b : List Nat) (h : a.length ≤ b.length) :
    zipXor (zipXor a b) b = a := by
  induction a generalizing b with
  | nil => simp [zipXor]
  | cons x xs ih =>
    cases b with
    | nil => simp at h
    | cons y ys =>
      simp only [zipXor, List.zipWith_cons_cons, List.cons.injEq] at *
      exact ⟨Nat.xor_cancel_right y x, ih ys (Nat.le_of_succ_le_succ h)⟩

theorem toBlocksFuel_congr (bs : Nat) : ∀ (f1 f2 : Nat) (l : List Nat),
    l.length ≤ f1 → l.length ≤ f2 → toBlocksFuel bs f1 l = toBlocksFuel bs f2 l := by
  intro f1
  induction f1 with
  | zero =>
    intro f2 l h1 _
    have : l = [] := by
      cases l with
      | nil => rfl
      | cons x xs => simp at h1
    subst this
    cases f2 <;> rfl
  | succ g ih =>
    intro f2 l h1 h2
    cases l with
    | nil => cases f2 <;> rfl
    | cons x xs =>
      cases f2 with
      | zero => simp at h2
      | succ h =>
        simp only [toBlocksFuel, List.cons.injEq, true_and]
        apply ih
        · have := List.length_drop (bs - 1) xs
          simp at h1
          omega
        · have := List.length_drop (bs - 1) xs
          simp at h2
          omega

theorem toBlocks_nil (bs : Nat) : toBlocks bs [] = [] := rfl

theorem toBlocks_cons (bs : Nat) (x : Nat) (xs : List Nat) :
    toBlocks bs (x :: xs) = (x :: xs.take (bs - 1)) :: toBlocks bs (xs.drop (bs - 1)) := by
  show toBlocksFuel bs (xs.length + 1) (x :: xs) = _
  simp only [toBlocksFuel, List.cons.injEq, true_and]
  apply toBlocksFuel_congr
  · have := List.length_drop (bs - 1) xs
    omega
  · exact Nat.le_refl _

theorem toBlocks_chunk (bs : Nat) (c r : List Nat) (hc : c.length = bs) (hbs : 0 < bs) :
    toBlocks bs (c ++ r) = c :: toBlocks bs r := by
  cases c with
  | nil => simp at hc; omega
  | cons y ys =>
    have hys : ys.length = bs - 1 := by simp at hc; omega
    have h1 : (ys ++ r).take (bs - 1) = ys := by rw [← hys, List.take_left]
    have h2 : (ys ++ r).drop (bs - 1) = r := by rw [← hys, List.drop_left]
    rw [List.cons_append, toBlocks_cons, h1, h2]

theorem toBlocks_flatten (bs : Nat) (l : List Nat) : (toBlocks bs l).flatten = l := by
  cases l with
  | nil => simp [toBlocks_nil]
  | cons x xs =>
    rw [toBlocks_cons, List.flatten_cons, toBlocks_flatten bs (xs.drop (bs - 1))]
    simp [List.take_append_drop]
termination_by l.length
decreasing_by simp; omega

theorem toBlocks_all_length (bs : Nat) (hbs : 0 < bs) (k : Nat) (l : List Nat)
    (hl : l.length = k * bs) : ∀ b ∈ toBlocks bs l, b.length = bs := by
  induction k generalizing l with
  | zero =>
    have : l = [] := by
      cases l with
      | nil => rfl
      | cons x xs => simp at hl
    subst this
    simp [toBlocks_nil]
  | succ m ih =>
    have hsplit : l = l.take bs ++ l.drop bs := (List.take_append_drop bs l).symm
    have htk : (l.take bs).length = bs := by
      simp only [List.length_take]
      have : bs ≤ l.length := by rw [hl]; calc
        bs = 1 * bs := by omega
        _ ≤ (m + 1) * bs := Nat.mul_le_mul_right bs (by omega)
      omega
    have hdr : (l.drop bs).length = m * bs := by
      simp only [List.length_drop, hl]
      calc (m + 1) * bs - bs = m * bs + bs - bs := by ring_nf
        _ = m * bs := by omega
    intro b hb
    rw [hsplit, toBlocks_chunk bs _ _ htk hbs] at hb
    rcases List.mem_cons.mp hb with hb | hb
    · rw [hb]; exact htk
    · exact ih (l.drop bs) hdr b hb

theorem toBlocks_count (bs : Nat) (hbs : 0 < bs) (k : Nat) (l : List Nat)
    (hl : l.length = k * bs) : (toBlocks bs l).length = k := by
  induction k generalizing l with
  | zero =>
    have : l = [] := by
      cases l with
      | nil => rfl
      | cons x xs => simp at hl
    subst this; simp [toBlocks_nil]
  | succ m ih =>
    have hsplit : l = l.take bs ++ l.drop bs := (List.take_append_drop bs l).symm
    have htk : (l.take bs).length = bs := by
      simp only [List.length_take]
      have : bs ≤ l.length := by rw [hl]; calc
        bs = 1 * bs := by omega
        _ ≤ (m + 1) * bs := Nat.mul_le_mul_right bs (by omega)
      omega
    have hdr : (l.drop bs).length = m * bs := by
      simp only [List.length_drop, hl]
      calc (m + 1) * bs - bs = m * bs + bs - bs := by ring_nf
        _ = m * bs := by omega
    rw [hsplit, toBlocks_chunk bs _ _ htk hbs]
    simp [ih (l.drop bs) hdr]

theorem cbcEncBlocks_all_length (enc : List Nat → List Nat) (bs : Nat)
    (henc : ∀ x : List Nat, x.length = bs → (enc x).length = bs) :
    ∀ (blocks : List (List Nat)) (prev : List Nat), (∀ b ∈ blocks, b.length = bs) →
      prev.length = bs → ∀ cb ∈ cbcEncBlocks enc prev blocks, cb.length = bs := by
  intro blocks
  induction blocks with
  | nil => intro prev _ _ cb hcb; simp [cbcEncBlocks] at hcb
  | cons b rest ih =>
    intro prev hall hprev cb hcb
    simp only [cbcEncBlocks] at hcb
    have hb : b.length = bs := hall b (by simp)
    have hx : (zipXor b prev).length = bs := by
      rw [zipXor_length, hb, hprev]; omega
    have hc : (enc (zipXor b prev)).length = bs := henc _ hx
    rcases List.mem_cons.mp hcb with hcb | hcb
    · rw [hcb]; exact hc
    · exact ih (enc (zipXor b prev)) (fun x hx => hall x (by simp [hx])) hc cb hcb

theorem cbcEncBlocks_count (enc : List Nat → List Nat) (blocks : List (List Nat))
    (prev : List Nat) : (cbcEncBlocks enc prev blocks).length = blocks.length := by
  induction blocks generalizing prev with
  | nil => simp [cbcEncBlocks]
  | cons b rest ih => simp [cbcEncBlocks, ih]

theorem cbcDecBlocks_cbcEncBlocks (enc dec : List Nat → List Nat) (bs : Nat)
    (henc : ∀ x : List Nat, x.length = bs → (enc x).length = bs)
    (hinv : ∀ x : List Nat, x.length = bs → dec (enc x) = x) :
    ∀ (blocks : List (List Nat)) (prev : List Nat), (∀ b ∈ blocks, b.length = bs) →
      prev.length = bs → cbcDecBlocks dec prev (cbcEncBlocks enc prev blocks) = blocks := by
  intro blocks
  induction blocks with
  | nil => intro prev _ _; simp [cbcEncBlocks, cbcDecBlocks]
  | cons b rest ih =>
    intro prev hall hprev
    have hb : b.length = bs := hall b (by simp)
    have hx : (zipXor b prev).length = bs := by
      rw [zipXor_length, hb, hprev]; omega
    have hc : (enc (zipXor b prev)).length = bs := henc _ hx
    simp only [cbcEncBlocks, cbcDecBlocks, List.cons.injEq]
    constructor
    · rw [hinv _ hx]
      exact zipXor_zipXor_cancel b prev (by omega)
    · exact ih (enc (zipXor b prev)) (fun x hxm => hall x (by simp [hxm])) hc

theorem flatten_all_length (bs : Nat) (bls : List (List Nat))
    (hall : ∀ b ∈ bls, b.length = bs) : bls.flatten.length = bls.length * bs := by
  induction bls with
  | nil => simp
  | cons b rest ih =>
    simp only [List.flatten_cons, List.length_append, List.length_cons]
    rw [hall b (by simp), ih (fun x hx => hall x (by simp [hx]))]
    ring

/-- CBC encryption then decryption under the same block cipher and IV is
the identity on buffers whose length is a multiple of the block size. -/
theorem cbcDecrypt_cbcEncrypt (c : Block) (hl : LawfulBlock c) (iv : List Nat)
    (hiv : iv.length = c.blockSize) (src : List Nat) (k : Nat)
    (hsrc : src.length = k * c.blockSize) : cbcDecrypt c iv (cbcEncrypt c iv src) = src := by
  have hbs : 0 < c.blockSize := hl.pos
  have hallsrc := toBlocks_all_length c.blockSize hbs k src hsrc
  have hallenc := cbcEncBlocks_all_length c.encryptBlock c.blockSize hl.enc_length
    (toBlocks c.blockSize src) iv hallsrc hiv
  have hcount : (cbcEncBlocks c.encryptBlock iv (toBlocks c.blockSize src)).length =
      (toBlocks c.blockSize src).length := cbcEncBlocks_count ..
  unfold cbcDecrypt cbcEncrypt
  have hflat : (cbcEncBlocks c.encryptBlock iv (toBlocks c.blockSize src)).flatten.length =
      (toBlocks c.blockSize src).length * c.blockSize := by
    rw [flatten_all_length c.blockSize _ hallenc, hcount]
  rw [show toBlocks c.blockSize
        (cbcEncBlocks c.encryptBlock iv (toBlocks c.blockSize src)).flatten =
      cbcEncBlocks c.encryptBlock iv (toBlocks c.blockSize src) from ?_]
  · rw [cbcDecBlocks_cbcEncBlocks c.encryptBlock c.decryptBlock c.blockSize hl.enc_length
      hl.dec_enc (toBlocks c.blockSize src) iv hallsrc hiv]
    exact toBlocks_flatten ..
  · -- re-chunking the flattened ciphertext blocks gives back the blocks
    generalize hB : cbcEncBlocks c.encryptBlock iv (toBlocks c.blockSize src) = B
    rw [hB] at hallenc
    clear hB hcount hflat
    induction B with
    | nil => simp [toBlocks_nil]
    | cons b rest ih =>
      simp only [List.flatten_cons]
      rw [toBlocks_chunk c.blockSize b rest.flatten (hallenc b (by simp)) hbs]
      rw [ih (fun x hx => hallenc x (by simp [hx]))]

theorem cbcEncrypt_length (c : Block) (hl : LawfulBlock c) (iv : List Nat)
    (hiv : iv.length = c.blockSize) (src : List Nat) (k : Nat)
    (hsrc : src.length = k * c.blockSize) : (cbcEncrypt c iv src).length = src.length := by
  have hbs : 0 < c.blockSize := hl.pos
  have hallsrc := toBlocks_all_length c.blockSize hbs k src hsrc
  have hallenc := cbcEncBlocks_all_length c.encryptBlock c.blockSize hl.enc_length
    (toBlocks c.blockSize src) iv hallsrc hiv
  unfold cbcEncrypt
  rw [flatten_all_length c.blockSize _ hallenc, cbcEncBlocks_count,
    toBlocks_count c.blockSize hbs k src hsrc, hsrc]

theorem getLast?_append_replicate (data : List Nat) (n v : Nat) (hn : 0 < n) :
    (data ++ List.replicate n v).getLast? = some v := by
  cases n with
  | zero => omega
  | succ m =>
    have h2 : (List.replicate (m + 1) v).getLast? = some v := by
      rw [List.replicate_succ']
      simp
    rw [List.getLast?_append_of_ne_nil _ (by simp), h2]

/-- Facts about the PKCS #7 pad appended by Info.Encrypt: with block size bs
the pad count is between 1 and bs and padding plus data fills whole blocks. -/
theorem padLen_facts (dl bs : Nat) (hbs : 0 < bs) :
    1 ≤ dl / bs * bs + bs - dl ∧ dl / bs * bs + bs - dl ≤ bs ∧
      dl + (dl / bs * bs + bs - dl) = (dl / bs + 1) * bs := by
  have h1 : dl % bs + bs * (dl / bs) = dl := Nat.mod_add_div dl bs
  have h2 : dl % bs < bs := Nat.mod_lt dl hbs
  have h3 : dl / bs * bs = bs * (dl / bs) := Nat.mul_comm ..
  have h4 : (dl / bs + 1) * bs = bs * (dl / bs) + bs := by ring
  generalize bs * (dl / bs) = p at h1 h3 h4
  rw [h3, h4]
  omega

/-- Core of C1: with a lawful cipher and a block-length IV, Info.Decrypt
inverts Info.Encrypt. -/
theorem Info.Decrypt_Encrypt (i : Info) (c : Block) (hc : i.cipher = some c)
    (hl : LawfulBlock c) (hiv : i.IV.length = c.blockSize) (data : List Nat) :
    i.Decrypt (i.Encrypt data) = .ok data := by
  have hbs : 0 < c.blockSize := hl.pos
  obtain ⟨hp1, hp2, hp3⟩ := padLen_facts data.length c.blockSize hbs
  set padLen := data.length / c.blockSize * c.blockSize + c.blockSize - data.length with hpd
  have hmod : padLen % 256 = padLen := Nat.mod_eq_of_lt (by
    have h255 := hl.le255
    omega)
  set src := data ++ List.replicate padLen padLen with hsrc
  have hsl : src.length = (data.length / c.blockSize + 1) * c.blockSize := by
    rw [hsrc]; simp only [List.length_append, List.length_replicate]; omega
  have hslen : src.length = data.length + padLen := by
    rw [hsrc]; simp only [List.length_append, List.length_replicate]
  have hrt : cbcDecrypt c i.IV (cbcEncrypt c i.IV src) = src :=
    cbcDecrypt_cbcEncrypt c hl i.IV hiv src (data.length / c.blockSize + 1) hsl
  simp only [Info.Encrypt, Info.Decrypt, hc]
  rw [← hpd, hmod, ← hsrc, hrt]
  have hlast : src.getLast? = some padLen := by
    rw [hsrc]
    exact getLast?_append_replicate data padLen padLen (by omega)
  simp only [hlast]
  have hnlt : ¬ src.length < padLen := by omega
  rw [if_neg hnlt]
  have hL : src.length - padLen = data.length := by omega
  rw [hL, hsrc, List.drop_left, List.take_left]
  simp [List.all_eq_true, List.mem_replicate]

/-- Length of an Info.Encrypt output: the padded data fills whole blocks,
one more than the data alone fills. -/
theorem Info.Encrypt_length (i : Info) (c : Block) (hc : i.cipher = some c)
    (hl : LawfulBlock c) (hiv : i.IV.length = c.blockSize) (data : List Nat) :
    (i.Encrypt data).length = (data.length / c.blockSize + 1) * c.blockSize := by
  have hbs : 0 < c.blockSize := hl.pos
  obtain ⟨hp1, hp2, hp3⟩ := padLen_facts data.length c.blockSize hbs
  set padLen := data.length / c.blockSize * c.blockSize + c.blockSize - data.length with hpd
  have hmod : padLen % 256 = padLen := Nat.mod_eq_of_lt (by
    have h255 := hl.le255
    omega)
  set src := data ++ List.replicate padLen padLen with hsrc
  have hsl : src.length = (data.length / c.blockSize + 1) * c.blockSize := by
    rw [hsrc]; simp only [List.length_append, List.length_replicate]; omega
  simp only [Info.Encrypt, hc]
  rw [← hpd, hmod, ← hsrc,
    cbcEncrypt_length c hl i.IV hiv src (data.length / c.blockSize + 1) hsl, hsl]

theorem encryptionNew_ok_none (Cf : CipherFamily) (ea : Int) (key : List Nat)
    (h : encryptionNew Cf ea key = .ok none) : ea = 0 := by
  by_cases h0 : ea = 0
  · exact h0
  · exfalso
    by_cases h1 : ea = 1 <;> by_cases h2 : ea = 2 <;> by_cases h3 : ea = 3 <;>
      simp [encryptionNew, h0, h1, h2, h3] at h <;>
      [skip; skip; skip; skip; skip; skip; skip] <;> split at h <;> simp at h

/-- Shape of a successful SetPassword with a non-empty password, encryption
configured, and a fresh salt and IV: the salt is the first 16 entropy bytes,
the key hash is the double digest, the cipher comes from encryptionNew, and
the IV is drawn from the remaining entropy. -/
theorem SetPassword_ok_shape (F : HashFamily) (Cf : CipherFamily) (i0 : Info)
    (pwd entropy : List Nat) (i : Info) (hpwd : pwd ≠ [])
    (hea0 : i0.EncryptionAlgorithm ≠ 0) (hsalt0 : i0.Salt = []) (hiv0 : i0.IV = [])
    (hi : Info.SetPassword F Cf i0 pwd entropy = .ok i) :
    ∃ H c, hashNew F i0.HashAlgorithm = .ok H ∧
      encryptionNew Cf i0.EncryptionAlgorithm (H (pwd ++ entropy.take 16)) = .ok (some c) ∧
      i = { i0 with Salt := entropy.take 16,
                    KeyHash := H (H (pwd ++ entropy.take 16)),
                    cipher := some c,
                    IV :=
                      if i0.IV.length = c.blockSize then i0.IV
                      else (entropy.drop 16).take c.blockSize } := by
  simp only [Info.SetPassword, if_neg hpwd, hsalt0, List.length_nil, eq_self_iff_true,
    if_true] at hi
  split at hi
  · simp at hi
  · rename_i H hh
    rw [if_pos hea0] at hi
    split at hi
    · simp at hi
    · rename_i hcn
      exact absurd (encryptionNew_ok_none _ _ _ hcn) hea0
    · rename_i c hcn
      simp only [Except.ok.injEq] at hi
      exact ⟨H, c, hh, hcn, hi.symm⟩

/-- C1: for every byte sequence b of length at most 65535 and every Info
record prepared by SetPassword with a non-empty password (fresh salt/IV,
cipher interface facts assumed of the standard ciphers),
Decrypt(Encrypt(b)) returns exactly b; with encryption configured the
ciphertext is strictly longer than b (at least one padding byte), and a
16-byte input under a 16-byte block cipher encrypts to 32 bytes. -/
theorem c1_encrypt_decrypt_roundtrip
    (F : HashFamily) (Cf : CipherFamily) (hCf : GoodCipherFamily Cf)
    (i0 : Info) (pwd entropy : List Nat) (hpwd : pwd ≠ [])
    (hsalt0 : i0.Salt = []) (hiv0 : i0.IV = []) (hcip0 : i0.cipher = none)
    (hent : entropy.length = 32)
    (i : Info) (hi : Info.SetPassword F Cf i0 pwd entropy = .ok i)
    (b : List Nat) (hb : b.length ≤ 65535) :
    i.Decrypt (i.Encrypt b) = .ok b ∧
      (i0.EncryptionAlgorithm ≠ 0 →
        b.length < (i.Encrypt b).length ∧
          ∀ c, i.cipher = some c → c.blockSize = 16 → b.length = 16 →
            (i.Encrypt b).length = 32) := by
  by_cases hea0 : i0.EncryptionAlgorithm = 0
  · -- no encryption: both operations are the identity
    have hcip : i.cipher = none := by
      simp only [Info.SetPassword, if_neg hpwd, hsalt0, List.length_nil, eq_self_iff_true,
        if_true] at hi
      split at hi
      · simp at hi
      · rw [if_neg (by simp [hea0])] at hi
        simp only [Except.ok.injEq] at hi
        rw [← hi]
        exact hcip0
    refine ⟨?_, fun h => absurd hea0 h⟩
    simp [Info.Encrypt, Info.Decrypt, hcip]
  · obtain ⟨H, c, hH, hcn, hieq⟩ :=
      SetPassword_ok_shape F Cf i0 pwd entropy i hpwd hea0 hsalt0 hiv0 hi
    -- identify the cipher block and its size from encryptionNew
    have hblock : LawfulBlock c ∧ (c.blockSize = 8 ∨ c.blockSize = 16) := by
      by_cases h1 : i0.EncryptionAlgorithm = 1
      · simp only [encryptionNew, h1] at hcn
        norm_num at hcn
        split at hcn
        · simp at hcn
        · simp only [Except.ok.injEq, Option.some.injEq] at hcn
          rw [← hcn]
          exact ⟨hCf.des_lawful _, Or.inl (hCf.des_bs _)⟩
      · by_cases h2 : i0.EncryptionAlgorithm = 2
        · simp only [encryptionNew, h2] at hcn
          norm_num at hcn
          split at hcn
          · simp at hcn
          · simp only [Except.ok.injEq, Option.some.injEq] at hcn
            rw [← hcn]
            exact ⟨hCf.tdes_lawful _, Or.inl (hCf.tdes_bs _)⟩
        · by_cases h3 : i0.EncryptionAlgorithm = 3
          · simp only [encryptionNew, h3] at hcn
            norm_num at hcn
            split at hcn
            · simp at hcn
            · simp only [Except.ok.injEq, Option.some.injEq] at hcn
              rw [← hcn]
              exact ⟨hCf.aes_lawful _, Or.inr (hCf.aes_bs _)⟩
          · simp [encryptionNew, hea0, h1, h2, h3] at hcn
    obtain ⟨hlaw, hbs⟩ := hblock
    have hbspos : 0 < c.blockSize := hlaw.pos
    have hcip : i.cipher = some c := by rw [hieq]
    have hIV : i.IV = (entropy.drop 16).take c.blockSize := by
      rw [hieq]
      simp only [hiv0, List.length_nil]
      rw [if_neg (by omega)]
    have hivlen : i.IV.length = c.blockSize := by
      rw [hIV]
      simp only [List.length_take, List.length_drop, hent]
      omega
    refine ⟨Info.Decrypt_Encrypt i c hcip hlaw hivlen b, fun _ => ?_⟩
    have hlen := Info.Encrypt_length i c hcip hlaw hivlen b
    obtain ⟨hp1, hp2, hp3⟩ := padLen_facts b.length c.blockSize hbspos
    constructor
    · omega
    · intro c2 hc2 hbs2 hb16
      rw [hc2] at hcip
      have hcc : c2 = c := Option.some.inj hcip
      rw [hcc] at hbs2
      rw [hlen, hb16, hbs2]

theorem idBlock_lawful (bs : Nat) (h1 : 0 < bs) (h2 : bs ≤ 255) : LawfulBlock (idBlock bs) :=
  ⟨h1, h2, fun _ hx => hx, fun _ _ => rfl⟩

theorem testCipherFamily_good : GoodCipherFamily testCipherFamily :=
  ⟨fun _ => idBlock_lawful 8 (by decide) (by decide),
   fun _ => idBlock_lawful 8 (by decide) (by decide),
   fun _ => idBlock_lawful 16 (by decide) (by decide),
   fun _ => rfl, fun _ => rfl, fun _ => rfl⟩

/-- Witness for C1: the round trip, the strict length growth, and the
16-to-32-byte padding observed at concrete inputs. -/
theorem c1_encrypt_decrypt_roundtrip_witness :
    pwdBytes ≠ [] ∧ c1entropy.length = 32 ∧ c1b.length ≤ 65535 ∧
      Info.SetPassword testHashFamily testCipherFamily c1i0 pwdBytes c1entropy = .ok c1out ∧
      c1out.Decrypt (c1out.Encrypt c1b) = .ok c1b ∧
      c1b.length < (c1out.Encrypt c1b).length ∧
      (c1out.Encrypt c1b).length = 32 := by
  have hi : Info.SetPassword testHashFamily testCipherFamily c1i0 pwdBytes c1entropy =
      .ok c1out := by rfl
  have main := c1_encrypt_decrypt_roundtrip testHashFamily testCipherFamily
    testCipherFamily_good c1i0 pwdBytes c1entropy (by decide) rfl rfl rfl (by decide)
    c1out hi c1b (by decide)
  have hne : c1i0.EncryptionAlgorithm ≠ 0 := by decide
  exact ⟨by decide, by decide, by decide, hi, main.1, (main.2 hne).1,
    (main.2 hne).2 (idBlock 16) rfl rfl (by decide)⟩

/-- Counterexample to C2: with a cipher present, Info.Decrypt accepts a
buffer whose CBC decryption ends in the byte 0 (returning the whole buffer),
and accepts a pad count of 17 on a 32-byte buffer with block size 16 —
both outside the claimed [1, block_size] acceptance range. -/
theorem c2_counterexample :
    c2info.Decrypt (List.replicate 16 0) = .ok (List.replicate 16 0) ∧
      (cbcDecrypt (idBlock 16) c2info.IV (List.replicate 16 0)).getLast? = some 0 ∧
      c2info.Decrypt c2data = .ok (List.replicate 15 0) ∧
      (cbcDecrypt (idBlock 16) c2info.IV c2data).getLast? = some 17 := by
  decide

/-- C2 amended: Info.Decrypt with a cipher present accepts the
CBC-decrypted buffer exactly when its final byte v is at most the buffer
length and the last v bytes all equal v; a final byte of 0 is accepted with
nothing stripped, and any failing buffer is rejected with PKCS7Error. -/
theorem c2_amended_pkcs7 (i : Info) (c : Block) (hc : i.cipher = some c)
    (data dst : List Nat) (hdst : cbcDecrypt c i.IV data = dst)
    (v : Nat) (hv : dst.getLast? = some v) :
    (i.Decrypt data = .ok (dst.take (dst.length - v)) ↔
        v ≤ dst.length ∧ ∀ x ∈ dst.drop (dst.length - v), x = v) ∧
      (v = 0 → i.Decrypt data = .ok dst) ∧
      (¬ (v ≤ dst.length ∧ ∀ x ∈ dst.drop (dst.length - v), x = v) →
        i.Decrypt data = .error .pkcs7) := by
  simp only [Info.Decrypt, hdst, hc, hv]
  by_cases h1 : dst.length < v
  · rw [if_pos h1]
    refine ⟨⟨fun h => by simp at h, fun h => absurd h.1 (by omega)⟩, ?_, fun _ => rfl⟩
    intro hv0
    omega
  · rw [if_neg h1]
    by_cases h2 : ∀ x ∈ dst.drop (dst.length - v), x = v
    · have hall : (dst.drop (dst.length - v)).all (fun x => x = v) = true := by
        simp only [List.all_eq_true, decide_eq_true_eq]
        exact h2
      rw [if_pos hall]
      refine ⟨⟨fun _ => ⟨by omega, h2⟩, fun _ => rfl⟩, ?_, fun h => absurd ⟨by omega, h2⟩ h⟩
      intro hv0
      rw [hv0]
      simp
    · have hall : ¬ (dst.drop (dst.length - v)).all (fun x => x = v) = true := by
        simp only [List.all_eq_true, decide_eq_true_eq]
        exact h2
      rw [if_neg hall]
      refine ⟨⟨fun h => by simp at h, fun h => absurd h.2 h2⟩, ?_, fun _ => rfl⟩
      intro hv0
      exfalso
      apply h2
      intro x hx
      rw [hv0] at hx ⊢
      simp at hx

/-- Witness for the amended C2 at a concrete buffer whose decryption ends
in the byte 0: accepted, with nothing stripped. -/
theorem c2_amended_pkcs7_witness :
    c2info.cipher = some (idBlock 16) ∧
      cbcDecrypt (idBlock 16) c2info.IV (List.replicate 16 0) = List.replicate 16 0 ∧
      (List.replicate 16 (0 : Nat)).getLast? = some 0 ∧
      c2info.Decrypt (List.replicate 16 0) = .ok (List.replicate 16 0) := by
  have h := c2_amended_pkcs7 c2info (idBlock 16) rfl (List.replicate 16 0)
    (List.replicate 16 0) (by decide) 0 (by decide)
  exact ⟨rfl, by decide, by decide, h.2.1 rfl⟩

/-- Counterexample to C8: immediately after Client.Reset returns, the cb
map still holds the connection that was waiting for a callback; Reset
closes connections but never deletes map entries. -/
theorem c8_counterexample : (Client.Reset c8state).cb = [0] ∧ (Client.Reset c8state).cb ≠ [] := by
  decide

theorem foldl_cleanup_empties (L : List Nat) : ∀ s : ClientState, s.cb = L → L.Nodup →
    (L.foldl Client.callbackCleanup s).cb = [] := by
  induction L with
  | nil =>
    intro s hs _
    simpa [List.foldl] using hs
  | cons x rest ih =>
    intro s hs hnd
    simp only [List.foldl]
    apply ih
    · simp [Client.callbackCleanup, hs, List.erase_cons_head]
    · exact (List.nodup_cons.mp hnd).2

/-- C8 amended: after Reset returns, every connection in the cb map has
been closed and the cancellation scope replaced; the cb map itself is left
untouched by Reset, and it becomes empty only after the deferred cleanup
of every callback reader has run. -/
theorem c8_amended_reset (c : ClientState) (hnd : c.cb.Nodup) :
    (∀ conn ∈ (Client.Reset c).cb, conn ∈ (Client.Reset c).closed) ∧
      (Client.Reset c).ctxGen ≠ c.ctxGen ∧
      (Client.Reset c).cb = c.cb ∧
      ((Client.Reset c).cb.foldl Client.callbackCleanup (Client.Reset c)).cb = [] := by
  refine ⟨?_, by simp [Client.Reset], rfl, ?_⟩
  · intro conn hconn
    simp only [Client.Reset, List.mem_append]
    exact Or.inr hconn
  · exact foldl_cleanup_empties c.cb (Client.Reset c) rfl hnd

/-- Witness for the amended C8 at the one-connection client state. -/
theorem c8_amended_reset_witness :
    c8state.cb.Nodup ∧
      ((∀ conn ∈ (Client.Reset c8state).cb, conn ∈ (Client.Reset c8state).closed) ∧
        (Client.Reset c8state).ctxGen ≠ c8state.ctxGen ∧
        (Client.Reset c8state).cb = c8state.cb ∧
        ((Client.Reset c8state).cb.foldl Client.callbackCleanup (Client.Reset c8state)).cb = []) :=
  ⟨by decide, c8_amended_reset c8state (by decide)⟩

/-- C6: the source Convert accepts only CMYK, Gray, Gray16 and NRGBA; it
rejects NRGBA64, NYCbCrA, Paletted and RGBA with the unsupported-image
error, although the repository's own TestConvert feeds exactly those types
and expects success.  Evaluated at the failing inputs, with the accepted
types shown for contrast (output type and bounds as in the source). -/
theorem c6_convert_unsupported :
    Convert (GoImage.nrgba64 ⟨0, 0, 32, 32⟩) = .error .unsupportedImage ∧
      Convert (GoImage.nycbcra ⟨0, 0, 32, 32⟩) = .error .unsupportedImage ∧
      Convert (GoImage.paletted ⟨0, 0, 32, 32⟩) = .error .unsupportedImage ∧
      Convert (GoImage.rgba ⟨0, 0, 32, 32⟩) = .error .unsupportedImage ∧
      Convert (GoImage.ycbcr ⟨0, 0, 32, 32⟩) = .error .unsupportedImage ∧
      Convert (GoImage.alpha ⟨0, 0, 32, 32⟩) = .error .unsupportedImage ∧
      Convert (GoImage.cmyk ⟨0, 0, 32, 32⟩) = .ok (GoImage.nrgba ⟨0, 0, 32, 32⟩) ∧
      Convert (GoImage.gray ⟨0, 0, 32, 32⟩) = .ok (GoImage.gray ⟨0, 0, 32, 32⟩) ∧
      Convert (GoImage.gray16 ⟨0, 0, 32, 32⟩) = .ok (GoImage.gray ⟨0, 0, 32, 32⟩) ∧
      Convert (GoImage.nrgba ⟨0, 0, 32, 32⟩) = .ok (GoImage.nrgba ⟨0, 0, 32, 32⟩) := by
  decide

/-! Facade lemmas. -/

theorem assocLookup_insert_self {α : Type} (m : List (String × α)) (k : String) (v : α) :
    assocLookup (assocInsert m k v) k = some v := by
  induction m with
  | nil => simp [assocInsert, assocLookup]
  | cons p rest ih =>
    by_cases h : p.1 = k
    · simp [assocInsert, assocLookup, h]
    · simp [assocInsert, assocLookup, h, ih]

theorem assocLookup_insert_ne {α : Type} (m : List (String × α)) (k k2 : String) (v : α)
    (hne : k2 ≠ k) : assocLookup (assocInsert m k v) k2 = assocLookup m k2 := by
  induction m with
  | nil =>
    simp only [assocInsert, assocLookup]
    rw [if_neg (fun h => hne h.symm)]
  | cons p rest ih =>
    by_cases h : p.1 = k
    · rw [show assocInsert (p :: rest) k v = (p.1, v) :: rest by simp [assocInsert, h]]
      simp only [assocLookup]
      rw [if_neg (by rw [h]; exact fun hh => hne hh.symm),
        if_neg (by rw [h]; exact fun hh => hne hh.symm)]
    · rw [show assocInsert (p :: rest) k v = (p.1, p.2) :: assocInsert rest k v by
        simp [assocInsert, h]]
      simp only [assocLookup]
      by_cases h2 : p.1 = k2
      · rw [if_pos h2, if_pos h2]
      · rw [if_neg h2, if_neg h2, ih]

theorem mem_map_snd_of_lookup {α : Type} (m : List (String × α)) (k : String) (v : α)
    (h : assocLookup m k = some v) : v ∈ m.map Prod.snd := by
  induction m with
  | nil => simp [assocLookup] at h
  | cons p rest ih =>
    simp only [assocLookup] at h
    by_cases hk : p.1 = k
    · rw [if_pos hk] at h
      simp only [Option.some.injEq] at h
      simp [← h]
    · rw [if_neg hk] at h
      simp [ih h]

theorem assocLookup_eq_none {α : Type} (m : List (String × α)) (k : String)
    (h : ∀ p ∈ m, p.1 ≠ k) : assocLookup m k = none := by
  induction m with
  | nil => rfl
  | cons p rest ih =>
    simp only [assocLookup]
    rw [if_neg (h p (by simp))]
    exact ih (fun q hq => h q (by simp [hq]))

theorem applyDisplayName_preserves (opts : List (String × GoValue)) (n n2 : Notification)
    (h : applyDisplayName opts n = .ok n2) : n2.Name = n.Name ∧ n2.Icon = n.Icon := by
  unfold applyDisplayName at h
  split at h <;>
    first
    | (simp only [Except.ok.injEq] at h; subst h; exact ⟨rfl, rfl⟩)
    | simp at h

theorem applyEnabled_preserves (opts : List (String × GoValue)) (n n2 : Notification)
    (h : applyEnabled opts n = .ok n2) : n2.Name = n.Name ∧ n2.Icon = n.Icon := by
  unfold applyEnabled at h
  split at h <;>
    first
    | (simp only [Except.ok.injEq] at h; subst h; exact ⟨rfl, rfl⟩)
    | simp at h

theorem applySticky_preserves (opts : List (String × GoValue)) (n n2 : Notification)
    (h : applySticky opts n = .ok n2) : n2.Name = n.Name ∧ n2.Icon = n.Icon := by
  unfold applySticky at h
  split at h <;>
    first
    | (simp only [Except.ok.injEq] at h; subst h; exact ⟨rfl, rfl⟩)
    | simp at h

theorem applyPriority_preserves (opts : List (String × GoValue)) (n n2 : Notification)
    (h : applyPriority opts n = .ok n2) : n2.Name = n.Name ∧ n2.Icon = n.Icon := by
  unfold applyPriority at h
  split at h <;> (try split at h) <;> (try split at h) <;>
    first
    | (simp only [Except.ok.injEq] at h; subst h; exact ⟨rfl, rfl⟩)
    | simp at h

theorem buildTemplate_preserves (event : String) (icon : GoValue)
    (opts : List (String × GoValue)) (n : Notification)
    (h : buildTemplate event icon opts = .ok n) : n.Name = event ∧ n.Icon = icon := by
  unfold buildTemplate at h
  split at h
  · simp at h
  · rename_i n1 h1
    split at h
    · simp at h
    · rename_i n2 h2
      split at h
      · simp at h
      · rename_i n3 h3
        obtain ⟨ha1, ha2⟩ := applyDisplayName_preserves opts _ n1 h1
        obtain ⟨hb1, hb2⟩ := applyEnabled_preserves opts n1 n2 h2
        obtain ⟨hc1, hc2⟩ := applySticky_preserves opts n2 n3 h3
        obtain ⟨hd1, hd2⟩ := applyPriority_preserves opts n3 n h
        constructor
        · rw [hd1, hc1, hb1, ha1]; rfl
        · rw [hd2, hc2, hb2, ha2]; rfl

/-! Info line codec groundwork: hex digits, index, trim and case lemmas. -/

theorem hexVal_hexDigitChar (n : Nat) (h : n < 16) : hexVal (hexDigitChar n) = some n := by
  interval_cases n <;> decide

theorem hexDigitChar_stable (n : Nat) (h : n < 16) :
    goToUpperChar (hexDigitChar n) = hexDigitChar n ∧
      isSpaceChar (hexDigitChar n) = false ∧
      hexDigitChar n ≠ ':' ∧ hexDigitChar n ≠ '.' ∧ hexDigitChar n ≠ ' ' := by
  interval_cases n <;> decide

theorem bytesToHex_nil : bytesToHex [] = [] := rfl

theorem bytesToHex_cons (b : Nat) (bs : List Nat) :
    bytesToHex (b :: bs) =
      hexDigitChar (b / 16) :: hexDigitChar (b % 16) :: bytesToHex bs := rfl

theorem hexDecode_bytesToHex (bs : List Nat) (h : ∀ b ∈ bs, b < 256) :
    hexDecode (bytesToHex bs) = some bs := by
  induction bs with
  | nil => rfl
  | cons b rest ih =>
    rw [bytesToHex_cons]
    have hb : b < 256 := h b (by simp)
    have h1 : b / 16 < 16 := by omega
    have h2 : b % 16 < 16 := by omega
    simp only [hexDecode, hexVal_hexDigitChar _ h1, hexVal_hexDigitChar _ h2,
      ih (fun x hx => h x (by simp [hx]))]
    have hsum : b / 16 * 16 + b % 16 = b := by omega
    rw [hsum]

theorem mem_bytesToHex (bs : List Nat) (h : ∀ b ∈ bs, b < 256) (c : Char)
    (hc : c ∈ bytesToHex bs) : ∃ n, n < 16 ∧ c = hexDigitChar n := by
  induction bs with
  | nil => simp [bytesToHex_nil] at hc
  | cons b rest ih =>
    rw [bytesToHex_cons] at hc
    have hb := h b (by simp)
    simp only [List.mem_cons] at hc
    rcases hc with rfl | rfl | hc
    · exact ⟨b / 16, by omega, rfl⟩
    · exact ⟨b % 16, by omega, rfl⟩
    · exact ih (fun x hx => h x (by simp [hx])) hc

theorem bytesToHex_clean (bs : List Nat) (h : ∀ b ∈ bs, b < 256) :
    cleanSeg (bytesToHex bs) := by
  intro c hc
  obtain ⟨n, hn, rfl⟩ := mem_bytesToHex bs h c hc
  have hs := hexDigitChar_stable n hn
  exact ⟨hs.1, hs.2.1⟩

theorem bytesToHex_no_colon_dot (bs : List Nat) (h : ∀ b ∈ bs, b < 256) :
    ∀ c ∈ bytesToHex bs, c ≠ ':' ∧ c ≠ '.' := by
  intro c hc
  obtain ⟨n, hn, rfl⟩ := mem_bytesToHex bs h c hc
  have hs := hexDigitChar_stable n hn
  exact ⟨hs.2.2.1, hs.2.2.2.1⟩

theorem bytesToHex_length (bs : List Nat) : (bytesToHex bs).length = 2 * bs.length := by
  induction bs with
  | nil => rfl
  | cons b rest ih =>
    rw [bytesToHex_cons]
    simp [ih]
    omega

theorem ne_space_of_clean (c : Char) (h : isSpaceChar c = false) : c ≠ ' ' := by
  intro hc
  rw [hc] at h
  simp [isSpaceChar] at h

theorem goIndexAux_not_mem (ch : Char) (l : List Char) (h : ∀ c ∈ l, c ≠ ch) :
    goIndexAux ch l = none := by
  induction l with
  | nil => rfl
  | cons c rest ih =>
    simp only [goIndexAux]
    rw [if_neg (h c (by simp)), ih (fun x hx => h x (by simp [hx]))]
    rfl

theorem goIndex_append_cons (a : List Char) (ch : Char) (b : List Char)
    (h : ∀ c ∈ a, c ≠ ch) : goIndex (a ++ ch :: b) ch = some a.length := by
  unfold goIndex
  induction a with
  | nil => simp [goIndexAux]
  | cons c rest ih =>
    simp only [List.cons_append, goIndexAux, List.append_eq]
    rw [if_neg (h c (by simp)), ih (fun x hx => h x (by simp [hx]))]
    simp

theorem goIndex_not_mem (l : List Char) (ch : Char) (h : ∀ c ∈ l, c ≠ ch) :
    goIndex l ch = none := goIndexAux_not_mem ch l h

theorem dropWhile_eq_self_of_head (p : Char → Bool) (l : List Char)
    (h : ∀ c, l.head? = some c → p c = false) : l.dropWhile p = l := by
  cases l with
  | nil => rfl
  | cons x xs =>
    rw [List.dropWhile_cons, if_neg]
    simp [h x rfl]

theorem goTrimSpace_cons_space (M : List Char) : goTrimSpace (' ' :: M) = goTrimSpace M := by
  unfold goTrimSpace
  rw [List.dropWhile_cons, if_pos (by decide)]

theorem goTrimSpace_clean (M : List Char)
    (h1 : ∀ c, M.head? = some c → isSpaceChar c = false)
    (h2 : ∀ c, M.getLast? = some c → isSpaceChar c = false) : goTrimSpace M = M := by
  unfold goTrimSpace
  rw [dropWhile_eq_self_of_head _ _ h1,
    dropWhile_eq_self_of_head _ _ (fun c hc => h2 c (by rwa [List.head?_reverse] at hc))]
  exact List.reverse_reverse M

theorem goToUpper_eq_self (l : List Char) (h : ∀ c ∈ l, goToUpperChar c = c) :
    goToUpper l = l := by
  induction l with
  | nil => rfl
  | cons c rest ih =>
    simp only [goToUpper, List.map_cons]
    rw [h c (by simp)]
    have := ih (fun x hx => h x (by simp [hx]))
    simp only [goToUpper] at this
    rw [this]

theorem getLast?_through (a b : List Char) (hb : b ≠ []) :
    (a ++ b).getLast? = b.getLast? := List.getLast?_append_of_ne_nil a hb

theorem clean_head (s : List Char) (h : cleanSeg s) :
    ∀ c, s.head? = some c → isSpaceChar c = false := by
  intro c hc
  cases s with
  | nil => simp at hc
  | cons x xs =>
    simp only [List.head?_cons, Option.some.injEq] at hc
    subst hc
    exact (h x (by simp)).2

theorem clean_getLast (s : List Char) (h : cleanSeg s) :
    ∀ c, s.getLast? = some c → isSpaceChar c = false := by
  intro c hc
  exact (h c (List.mem_of_mem_getLast? (by simp [hc]))).2

theorem clean_ne_space (s : List Char) (h : cleanSeg s) : ∀ c ∈ s, c ≠ ' ' := by
  intro c hc
  exact ne_space_of_clean c (h c hc).2

/-- Evaluation of ParseInfo on a well-formed info line down to its tail:
the GNTP/1.0 prefix, a known message type, and two space-separated clean
segments reduce to parseTail on those segments. -/
theorem ParseInfo_frame (F : HashFamily) (Cf : CipherFamily) (pwd : List Nat) (mt : String)
    (hmt : mt = "REGISTER" ∨ mt = "NOTIFY" ∨ mt = "-OK" ∨ mt = "-ERROR" ∨ mt = "-CALLBACK")
    (eaSeg hashSeg : List Char) (hea : cleanSeg eaSeg) (hhash : cleanSeg hashSeg)
    (heane : eaSeg ≠ []) (hhashne : hashSeg ≠ []) :
    ParseInfo F Cf
      ("GNTP/1.0 ".toList ++ mt.toList ++ " ".toList ++ eaSeg ++ " ".toList ++ hashSeg) pwd =
      parseTail F Cf "1.0" mt eaSeg hashSeg pwd := by
  have hmtclean : cleanSeg mt.toList := by
    rcases hmt with rfl | rfl | rfl | rfl | rfl <;> decide
  have hmtne : mt.toList ≠ [] := by
    rcases hmt with rfl | rfl | rfl | rfl | rfl <;> decide
  have hline : "GNTP/1.0 ".toList ++ mt.toList ++ " ".toList ++ eaSeg ++ " ".toList ++ hashSeg
      = "GNTP/1.0 ".toList ++ (mt.toList ++ ' ' :: (eaSeg ++ ' ' :: hashSeg)) := by
    simp
  rw [hline]
  set R := mt.toList ++ ' ' :: (eaSeg ++ ' ' :: hashSeg) with hR
  have hlastR : R.getLast? = hashSeg.getLast? := by
    rw [hR, getLast?_through _ _ (by simp),
      show (' ' :: (eaSeg ++ ' ' :: hashSeg)) = [' '] ++ (eaSeg ++ ' ' :: hashSeg) from rfl,
      getLast?_through _ _ (by simp), getLast?_through _ _ (by simp),
      show (' ' :: hashSeg) = [' '] ++ hashSeg from rfl,
      getLast?_through _ _ hhashne]
  have hlast3 : (eaSeg ++ ' ' :: hashSeg).getLast? = hashSeg.getLast? := by
    rw [getLast?_through _ _ (by simp),
      show (' ' :: hashSeg) = [' '] ++ hashSeg from rfl,
      getLast?_through _ _ hhashne]
  have hupper : goToUpper ("GNTP/1.0 ".toList ++ R) = "GNTP/1.0 ".toList ++ R := by
    apply goToUpper_eq_self
    intro c hc
    rw [hR] at hc
    simp only [List.mem_append, List.mem_cons] at hc
    have hG : ∀ c ∈ "GNTP/1.0 ".toList, goToUpperChar c = c := by decide
    have hsp : goToUpperChar ' ' = ' ' := by decide
    rcases hc with h | h | h | h | h | h <;>
      first
        | exact hG c h
        | exact (hmtclean c h).1
        | exact (hea c h).1
        | exact (hhash c h).1
        | (rw [h]; exact hsp)
  have e2 : ("GNTP/1.0 ".toList ++ R).take 5 = "GNTP/".toList := by
    rw [show ("GNTP/1.0 ".toList : List Char) = "GNTP/".toList ++ "1.0 ".toList from rfl,
      List.append_assoc, show (5 : Nat) = ("GNTP/".toList : List Char).length from rfl,
      List.take_left]
  have e3 : ("GNTP/1.0 ".toList ++ R).drop 5 = "1.0 ".toList ++ R := by
    rw [show ("GNTP/1.0 ".toList : List Char) = "GNTP/".toList ++ "1.0 ".toList from rfl,
      List.append_assoc, show (5 : Nat) = ("GNTP/".toList : List Char).length from rfl,
      List.drop_left]
  have e4 : goIndex ("1.0 ".toList ++ R) ' ' = some 3 := by
    rw [show ("1.0 ".toList ++ R : List Char) = "1.0".toList ++ ' ' :: R from rfl,
      goIndex_append_cons _ _ _ (by decide)]
    rfl
  have e5 : ("1.0 ".toList ++ R).take 3 = "1.0".toList := by
    rw [show ("1.0 ".toList ++ R : List Char) = "1.0".toList ++ ' ' :: R from rfl,
      show (3 : Nat) = ("1.0".toList : List Char).length from rfl, List.take_left]
  have e6 : ("1.0 ".toList ++ R).drop 3 = ' ' :: R := by
    rw [show ("1.0 ".toList ++ R : List Char) = "1.0".toList ++ ' ' :: R from rfl,
      show (3 : Nat) = ("1.0".toList : List Char).length from rfl, List.drop_left]
  have e7 : goTrimSpace (' ' :: R) = R := by
    rw [goTrimSpace_cons_space]
    apply goTrimSpace_clean
    · intro c hc
      obtain ⟨x, xs, hmteq⟩ := List.exists_cons_of_ne_nil hmtne
      rw [hR, hmteq] at hc
      simp only [List.cons_append, List.head?_cons, Option.some.injEq] at hc
      exact hc ▸ (hmtclean x (by rw [hmteq]; simp)).2
    · intro c hc
      rw [hlastR] at hc
      exact clean_getLast hashSeg hhash c hc
  have e8 : goIndex R ' ' = some mt.toList.length := by
    rw [hR]
    exact goIndex_append_cons _ _ _ (clean_ne_space _ hmtclean)
  have e9 : R.take mt.toList.length = mt.toList := by
    rw [hR, List.take_left]
  have e10 : R.drop mt.toList.length = ' ' :: (eaSeg ++ ' ' :: hashSeg) := by
    rw [hR, List.drop_left]
  have e11 : String.mk mt.toList = mt := rfl
  have e12 : goTrimSpace (' ' :: (eaSeg ++ ' ' :: hashSeg)) = eaSeg ++ ' ' :: hashSeg := by
    rw [goTrimSpace_cons_space]
    apply goTrimSpace_clean
    · intro c hc
      obtain ⟨x, xs, heaeq⟩ := List.exists_cons_of_ne_nil heane
      rw [heaeq] at hc
      simp only [List.cons_append, List.head?_cons, Option.some.injEq] at hc
      exact hc ▸ (hea x (by rw [heaeq]; simp)).2
    · intro c hc
      rw [hlast3] at hc
      exact clean_getLast hashSeg hhash c hc
  have e13 : goIndex (eaSeg ++ ' ' :: hashSeg) ' ' = some eaSeg.length :=
    goIndex_append_cons _ _ _ (clean_ne_space _ hea)
  have e14 : (eaSeg ++ ' ' :: hashSeg).take eaSeg.length = eaSeg := List.take_left ..
  have e15 : (eaSeg ++ ' ' :: hashSeg).drop eaSeg.length = ' ' :: hashSeg := List.drop_left ..
  have e16 : goTrimSpace (' ' :: hashSeg) = hashSeg := by
    rw [goTrimSpace_cons_space]
    exact goTrimSpace_clean hashSeg (clean_head hashSeg hhash) (clean_getLast hashSeg hhash)
  have hcondmt : (String.mk mt.toList = "REGISTER" ∨ String.mk mt.toList = "NOTIFY" ∨
      String.mk mt.toList = "-OK" ∨ String.mk mt.toList = "-ERROR" ∨
      String.mk mt.toList = "-CALLBACK") := by
    rw [e11]
    exact hmt
  simp only [ParseInfo, hupper, e2, e3, e4, e5, e6, e7, e8, e9, e10, e12, e13, e14, e15,
    e16, e11, if_pos rfl, if_pos hcondmt]
  simp only [if_true]
  rw [if_pos (show (String.mk ("1.0".toList) : String) = "1.0" from rfl), if_pos hmt]
  rfl

theorem cleanSeg_append (a b : List Char) (ha : cleanSeg a) (hb : cleanSeg b) :
    cleanSeg (a ++ b) := by
  intro c hc
  rcases List.mem_append.mp hc with h | h
  · exact ha c h
  · exact hb c h

theorem cleanSeg_cons (c : Char) (l : List Char)
    (h1 : goToUpperChar c = c ∧ isSpaceChar c = false) (h2 : cleanSeg l) :
    cleanSeg (c :: l) := by
  intro x hx
  rcases List.mem_cons.mp hx with rfl | h
  · exact h1
  · exact h2 x h

theorem drop_append_cons_succ (a : List Char) (ch : Char) (T : List Char) :
    (a ++ ch :: T).drop (a.length + 1) = T := by
  have h := List.drop_drop 1 a.length (a ++ ch :: T)
  rw [List.drop_left] at h
  rw [← h]
  rfl

/-- Evaluation of parseTail on an authenticated (NONE-encryption) line:
the result is the parsed Info when the recomputed double digest matches
the transmitted key hash, and PasswordIncorrect otherwise. -/
theorem parseTail_auth (F : HashFamily) (Cf : CipherFamily) (mt : String)
    (pwd kh salt : List Nat) (ha : Int) (H : List Nat → List Nat)
    (hha : ha = 0 ∨ ha = 1 ∨ ha = 2 ∨ ha = 3) (hH : hashNew F ha = .ok H)
    (hkh : ∀ b ∈ kh, b < 256) (hsalt : ∀ b ∈ salt, b < 256) :
    parseTail F Cf "1.0" mt "NONE".toList
        (haName ha ++ ':' :: (bytesToHex kh ++ '.' :: bytesToHex salt)) pwd =
      if H (H (pwd ++ salt)) = kh then .ok ⟨"1.0", mt, 0, [], ha, kh, salt, none⟩
      else .error .password := by
  have hne : haName ha ++ ':' :: (bytesToHex kh ++ '.' :: bytesToHex salt) ≠ [] := by
    rcases hha with rfl | rfl | rfl | rfl <;> simp [haName]
  have hidx : goIndex (haName ha ++ ':' :: (bytesToHex kh ++ '.' :: bytesToHex salt)) ':' =
      some (haName ha).length := by
    apply goIndex_append_cons
    rcases hha with rfl | rfl | rfl | rfl <;> decide
  have htake : (haName ha ++ ':' :: (bytesToHex kh ++ '.' :: bytesToHex salt)).take
      (haName ha).length = haName ha := List.take_left ..
  have hname : parseHashName (haName ha) = ha := by
    rcases hha with rfl | rfl | rfl | rfl <;> decide
  have hdrop : (haName ha ++ ':' :: (bytesToHex kh ++ '.' :: bytesToHex salt)).drop
      ((haName ha).length + 1) = bytesToHex kh ++ '.' :: bytesToHex salt :=
    drop_append_cons_succ ..
  have hidx2 : goIndex (bytesToHex kh ++ '.' :: bytesToHex salt) '.' =
      some (bytesToHex kh).length := by
    apply goIndex_append_cons
    intro c hc
    exact (bytesToHex_no_colon_dot kh hkh c hc).2
  have htake2 : (bytesToHex kh ++ '.' :: bytesToHex salt).take (bytesToHex kh).length =
      bytesToHex kh := List.take_left ..
  have hdrop2 : (bytesToHex kh ++ '.' :: bytesToHex salt).drop ((bytesToHex kh).length + 1) =
      bytesToHex salt := drop_append_cons_succ ..
  have hdec1 := hexDecode_bytesToHex kh hkh
  have hdec2 := hexDecode_bytesToHex salt hsalt
  have henc : parseEncSegment "NONE".toList = .ok (0, []) := by decide
  simp only [parseTail, henc, hidx, htake, hname, hdrop, hidx2, htake2, hdrop2, hdec1,
    hdec2, hH]
  rw [if_neg (by simp [hne])]
  by_cases hcmp : H (H (pwd ++ salt)) = kh
  · rw [if_pos hcmp]
    rw [if_neg (by simp [hcmp])]
    simp
  · rw [if_neg hcmp, if_pos (by simp [hcmp])]

/-- Evaluation of parseTail on an encrypted line: key-hash verification
first, then cipher construction from the derived key and the IV length
check. -/
theorem parseTail_enc (F : HashFamily) (Cf : CipherFamily) (mt : String)
    (pwd kh salt iv : List Nat) (ha ea : Int) (H : List Nat → List Nat)
    (hha : ha = 0 ∨ ha = 1 ∨ ha = 2 ∨ ha = 3) (hH : hashNew F ha = .ok H)
    (hea : ea = 1 ∨ ea = 2 ∨ ea = 3)
    (hkh : ∀ b ∈ kh, b < 256) (hsalt : ∀ b ∈ salt, b < 256)
    (hiv : ∀ b ∈ iv, b < 256) :
    parseTail F Cf "1.0" mt (eaName ea ++ ':' :: bytesToHex iv)
        (haName ha ++ ':' :: (bytesToHex kh ++ '.' :: bytesToHex salt)) pwd =
      if H (H (pwd ++ salt)) = kh then
        match encryptionNew Cf ea (H (pwd ++ salt)) with
        | .error e => .error e
        | .ok none => .ok ⟨"1.0", mt, ea, iv, ha, kh, salt, none⟩
        | .ok (some c) =>
          if iv.length ≠ c.blockSize then .error .protocol
          else .ok ⟨"1.0", mt, ea, iv, ha, kh, salt, some c⟩
      else .error .password := by
  have hne : haName ha ++ ':' :: (bytesToHex kh ++ '.' :: bytesToHex salt) ≠ [] := by
    rcases hha with rfl | rfl | rfl | rfl <;> simp [haName]
  have hidx : goIndex (haName ha ++ ':' :: (bytesToHex kh ++ '.' :: bytesToHex salt)) ':' =
      some (haName ha).length := by
    apply goIndex_append_cons
    rcases hha with rfl | rfl | rfl | rfl <;> decide
  have htake : (haName ha ++ ':' :: (bytesToHex kh ++ '.' :: bytesToHex salt)).take
      (haName ha).length = haName ha := List.take_left ..
  have hname : parseHashName (haName ha) = ha := by
    rcases hha with rfl | rfl | rfl | rfl <;> decide
  have hdrop : (haName ha ++ ':' :: (bytesToHex kh ++ '.' :: bytesToHex salt)).drop
      ((haName ha).length + 1) = bytesToHex kh ++ '.' :: bytesToHex salt :=
    drop_append_cons_succ ..
  have hidx2 : goIndex (bytesToHex kh ++ '.' :: bytesToHex salt) '.' =
      some (bytesToHex kh).length := by
    apply goIndex_append_cons
    intro c hc
    exact (bytesToHex_no_colon_dot kh hkh c hc).2
  have htake2 : (bytesToHex kh ++ '.' :: bytesToHex salt).take (bytesToHex kh).length =
      bytesToHex kh := List.take_left ..
  have hdrop2 : (bytesToHex kh ++ '.' :: bytesToHex salt).drop ((bytesToHex kh).length + 1) =
      bytesToHex salt := drop_append_cons_succ ..
  have hdec1 := hexDecode_bytesToHex kh hkh
  have hdec2 := hexDecode_bytesToHex salt hsalt
  have hdec3 := hexDecode_bytesToHex iv hiv
  have hidx0 : goIndex (eaName ea ++ ':' :: bytesToHex iv) ':' = some (eaName ea).length := by
    apply goIndex_append_cons
    rcases hea with rfl | rfl | rfl <;> decide
  have htake0 : (eaName ea ++ ':' :: bytesToHex iv).take (eaName ea).length = eaName ea :=
    List.take_left ..
  have hdrop0 : (eaName ea ++ ':' :: bytesToHex iv).drop ((eaName ea).length + 1) =
      bytesToHex iv := drop_append_cons_succ ..
  have henc : parseEncSegment (eaName ea ++ ':' :: bytesToHex iv) = .ok (ea, iv) := by
    simp only [parseEncSegment, hidx0, hdrop0, hdec3, htake0]
    rcases hea with rfl | rfl | rfl <;> simp [eaName]
  have heane0 : ea ≠ 0 := by rcases hea with rfl | rfl | rfl <;> decide
  simp only [parseTail, henc, hidx, htake, hname, hdrop, hidx2, htake2, hdrop2, hdec1,
    hdec2, hH]
  rw [if_neg (by simp [hne])]
  by_cases hcmp : H (H (pwd ++ salt)) = kh
  · rw [if_pos hcmp]
    rw [if_neg (by simp [hcmp]), if_pos heane0]
  · rw [if_neg hcmp, if_pos (by simp [hcmp])]

theorem hashNew_ok_facts (F : HashFamily) (hF : GoodHashFamily F) (ha : Int)
    (H : List Nat → List Nat) (hH : hashNew F ha = .ok H) :
    (∀ m, ∀ b ∈ H m, b < 256) ∧ (∀ m, 0 < (H m).length) ∧
      (ha = 0 ∨ ha = 1 ∨ ha = 2 ∨ ha = 3) := by
  by_cases h0 : ha = 0
  · subst h0
    have hm : H = F.md5 := by
      have h : hashNew F 0 = .ok F.md5 := rfl
      rw [h] at hH
      exact (Except.ok.inj hH).symm
    subst hm
    exact ⟨hF.md5_lt, fun m => by rw [hF.md5_len]; omega, Or.inl rfl⟩
  · by_cases h1 : ha = 1
    · subst h1
      have hm : H = F.sha1 := by
        have h : hashNew F 1 = .ok F.sha1 := rfl
        rw [h] at hH
        exact (Except.ok.inj hH).symm
      subst hm
      exact ⟨hF.sha1_lt, fun m => by rw [hF.sha1_len]; omega, Or.inr (Or.inl rfl)⟩
    · by_cases h2 : ha = 2
      · subst h2
        have hm : H = F.sha256 := by
          have h : hashNew F 2 = .ok F.sha256 := rfl
          rw [h] at hH
          exact (Except.ok.inj hH).symm
        subst hm
        exact ⟨hF.sha256_lt, fun m => by rw [hF.sha256_len]; omega,
          Or.inr (Or.inr (Or.inl rfl))⟩
      · by_cases h3 : ha = 3
        · subst h3
          have hm : H = F.sha512 := by
            have h : hashNew F 3 = .ok F.sha512 := rfl
            rw [h] at hH
            exact (Except.ok.inj hH).symm
          subst hm
          exact ⟨hF.sha512_lt, fun m => by rw [hF.sha512_len]; omega,
            Or.inr (Or.inr (Or.inr rfl))⟩
        · have h : hashNew F ha = .error .hash := by
            unfold hashNew
            rw [if_neg h0, if_neg h1, if_neg h2, if_neg h3]
          rw [h] at hH
          simp at hH

/-- Shape of a successful SetPassword with a non-empty password, NONE
encryption and a fresh salt: only Salt and KeyHash change. -/
theorem SetPassword_ok_shape0 (F : HashFamily) (Cf : CipherFamily) (i0 : Info)
    (pwd entropy : List Nat) (i : Info) (hpwd : pwd ≠ [])
    (hea0 : i0.EncryptionAlgorithm = 0) (hsalt0 : i0.Salt = [])
    (hi : Info.SetPassword F Cf i0 pwd entropy = .ok i) :
    ∃ H, hashNew F i0.HashAlgorithm = .ok H ∧
      i = { i0 with Salt := entropy.take 16,
                    KeyHash := H (H (pwd ++ entropy.take 16)) } := by
  simp only [Info.SetPassword, if_neg hpwd, hsalt0, List.length_nil, eq_self_iff_true,
    if_true] at hi
  split at hi
  · simp at hi
  · rename_i H hh
    rw [if_neg (by simp [hea0])] at hi
    simp only [Except.ok.injEq] at hi
    exact ⟨H, hh, hi.symm⟩

/-- C4 core: a successful SetPassword with a non-empty password derives
KeyHash as the double digest of password and salt under the configured
hash, with the salt fresh (the first 16 entropy bytes) when absent and
reused unchanged when present. -/
theorem SetPassword_keyhash (F : HashFamily) (Cf : CipherFamily) (i0 : Info)
    (pwd entropy : List Nat) (i : Info) (hpwd : pwd ≠ [])
    (hi : Info.SetPassword F Cf i0 pwd entropy = .ok i) :
    ∃ H, hashNew F i0.HashAlgorithm = .ok H ∧
      i.Salt = (if i0.Salt.length = 0 then entropy.take 16 else i0.Salt) ∧
      i.KeyHash = H (H (pwd ++ i.Salt)) ∧
      (i0.Salt = [] → 16 ≤ entropy.length → i.Salt.length = 16) ∧
      (i0.Salt ≠ [] → i.Salt = i0.Salt) := by
  simp only [Info.SetPassword, if_neg hpwd] at hi
  split at hi
  · simp at hi
  · rename_i H hh
    refine ⟨H, hh, ?_⟩
    have hgoal : i.Salt = (if i0.Salt.length = 0 then entropy.take 16 else i0.Salt) ∧
        i.KeyHash = H (H (pwd ++ (if i0.Salt.length = 0 then entropy.take 16 else i0.Salt))) := by
      by_cases hez : i0.EncryptionAlgorithm ≠ 0
      · rw [if_pos hez] at hi
        split at hi
        · simp at hi
        · simp only [Except.ok.injEq] at hi
          rw [← hi]
          exact ⟨rfl, rfl⟩
        · simp only [Except.ok.injEq] at hi
          rw [← hi]
          exact ⟨rfl, rfl⟩
      · rw [if_neg hez] at hi
        simp only [Except.ok.injEq] at hi
        rw [← hi]
        exact ⟨rfl, rfl⟩
    obtain ⟨hs, hk⟩ := hgoal
    refine ⟨hs, by rw [hk, hs], ?_, ?_⟩
    · intro h0 hlen
      rw [hs, if_pos (by rw [h0]; rfl)]
      simp only [List.length_take]
      omega
    · intro hne
      rw [hs, if_neg (by simpa using hne)]

theorem toLine_enc_shape (i : Info) (h : i.EncryptionAlgorithm ≠ 0) :
    i.toLine = "GNTP/1.0 ".toList ++ i.MessageType.toList ++ " ".toList ++
      (eaName i.EncryptionAlgorithm ++ ':' :: bytesToHex i.IV) ++ " ".toList ++
      (haName i.HashAlgorithm ++ ':' :: (bytesToHex i.KeyHash ++ '.' :: bytesToHex i.Salt)) := by
  simp only [Info.toLine, if_pos h]
  simp

theorem toLine_auth_shape (i : Info) (h : i.EncryptionAlgorithm = 0)
    (hkh : i.KeyHash.length ≠ 0) :
    i.toLine = "GNTP/1.0 ".toList ++ i.MessageType.toList ++ " ".toList ++ "NONE".toList ++
      " ".toList ++
      (haName i.HashAlgorithm ++ ':' :: (bytesToHex i.KeyHash ++ '.' :: bytesToHex i.Salt)) := by
  rw [Info.toLine]
  rw [if_neg (by simp [h]), if_pos hkh]
  have : eaName 0 = "NONE".toList := rfl
  simp [this]

theorem encryptionNew_ok_some (Cf : CipherFamily) (ea : Int) (key : List Nat) (c : Block)
    (h : encryptionNew Cf ea key = .ok (some c)) :
    (ea = 1 ∧ c = Cf.desNew (key.take 8)) ∨ (ea = 2 ∧ c = Cf.tdesNew (key.take 24)) ∨
      (ea = 3 ∧ c = Cf.aesNew (key.take 24)) := by
  by_cases h0 : ea = 0
  · rw [h0] at h
    simp [encryptionNew] at h
  · by_cases h1 : ea = 1
    · rw [h1] at h
      rw [show encryptionNew Cf 1 key =
          (if key.length < 8 then .error .keyLength else .ok (some (Cf.desNew (key.take 8))))
          from rfl] at h
      split at h
      · simp at h
      · simp only [Except.ok.injEq, Option.some.injEq] at h
        exact Or.inl ⟨h1, h.symm⟩
    · by_cases h2 : ea = 2
      · rw [h2] at h
        rw [show encryptionNew Cf 2 key =
            (if key.length < 24 then .error .keyLength else .ok (some (Cf.tdesNew (key.take 24))))
            from rfl] at h
        split at h
        · simp at h
        · simp only [Except.ok.injEq, Option.some.injEq] at h
          exact Or.inr (Or.inl ⟨h2, h.symm⟩)
      · by_cases h3 : ea = 3
        · rw [h3] at h
          rw [show encryptionNew Cf 3 key =
              (if key.length < 24 then .error .keyLength
               else .ok (some (Cf.aesNew (key.take 24)))) from rfl] at h
          split at h
          · simp at h
          · simp only [Except.ok.injEq, Option.some.injEq] at h
            exact Or.inr (Or.inr ⟨h3, h.symm⟩)
        · rw [show encryptionNew Cf ea key = .error .encryption from by
            unfold encryptionNew
            rw [if_neg h0, if_neg h1, if_neg h2, if_neg h3]] at h
          simp at h

theorem haName_clean (ha : Int) (hha : ha = 0 ∨ ha = 1 ∨ ha = 2 ∨ ha = 3) :
    cleanSeg (haName ha) ∧ haName ha ≠ [] := by
  rcases hha with rfl | rfl | rfl | rfl <;> exact ⟨by decide, by decide⟩

theorem hashSeg_clean (ha : Int) (hha : ha = 0 ∨ ha = 1 ∨ ha = 2 ∨ ha = 3)
    (kh salt : List Nat) (hkh : ∀ b ∈ kh, b < 256) (hsalt : ∀ b ∈ salt, b < 256) :
    cleanSeg (haName ha ++ ':' :: (bytesToHex kh ++ '.' :: bytesToHex salt)) ∧
      haName ha ++ ':' :: (bytesToHex kh ++ '.' :: bytesToHex salt) ≠ [] := by
  obtain ⟨h1, h2⟩ := haName_clean ha hha
  constructor
  · apply cleanSeg_append _ _ h1
    apply cleanSeg_cons _ _ (by decide)
    apply cleanSeg_append _ _ (bytesToHex_clean kh hkh)
    apply cleanSeg_cons _ _ (by decide)
    exact bytesToHex_clean salt hsalt
  · intro hc
    rcases List.append_eq_nil.mp hc with ⟨hc1, _⟩
    exact h2 hc1

/-- C3 amended: for an Info produced by SetPassword from a fresh record
with Version 1.0, a known message type and supported algorithms, parsing
the serialized line with the same password succeeds and agrees with the
record on Version, MessageType, EncryptionAlgorithm, IV, HashAlgorithm,
KeyHash and Salt (the private cipher handle excluded). -/
theorem c3_amended_parse_toLine (F : HashFamily) (hF : GoodHashFamily F)
    (Cf : CipherFamily) (hCf : GoodCipherFamily Cf) (i0 : Info)
    (pwd entropy : List Nat) (i : Info) (hpwd : pwd ≠ [])
    (hver : i0.Version = "1.0")
    (hmt : i0.MessageType = "REGISTER" ∨ i0.MessageType = "NOTIFY" ∨
      i0.MessageType = "-OK" ∨ i0.MessageType = "-ERROR" ∨ i0.MessageType = "-CALLBACK")
    (hsalt0 : i0.Salt = []) (hiv0 : i0.IV = []) (hcip0 : i0.cipher = none)
    (hent : entropy.length = 32) (hentb : ∀ b ∈ entropy, b < 256)
    (hi : Info.SetPassword F Cf i0 pwd entropy = .ok i) :
    ∃ j, ParseInfo F Cf i.toLine pwd = .ok j ∧
      j.Version = i.Version ∧ j.MessageType = i.MessageType ∧
      j.EncryptionAlgorithm = i.EncryptionAlgorithm ∧ j.IV = i.IV ∧
      j.HashAlgorithm = i.HashAlgorithm ∧ j.KeyHash = i.KeyHash ∧ j.Salt = i.Salt := by
  have hsaltb : ∀ b ∈ entropy.take 16, b < 256 :=
    fun b hb => hentb b (List.take_subset 16 entropy hb)
  by_cases hea0 : i0.EncryptionAlgorithm = 0
  · obtain ⟨H, hH, hieq⟩ := SetPassword_ok_shape0 F Cf i0 pwd entropy i hpwd hea0 hsalt0 hi
    obtain ⟨hbytes, hlen, hha⟩ := hashNew_ok_facts F hF i0.HashAlgorithm H hH
    have hkhb : ∀ b ∈ H (H (pwd ++ entropy.take 16)), b < 256 := hbytes _
    have hiea : i.EncryptionAlgorithm = 0 := by rw [hieq]; exact hea0
    have hikh : i.KeyHash = H (H (pwd ++ entropy.take 16)) := by rw [hieq]
    have hisalt : i.Salt = entropy.take 16 := by rw [hieq]
    have hiha : i.HashAlgorithm = i0.HashAlgorithm := by rw [hieq]
    have himt : i.MessageType = i0.MessageType := by rw [hieq]
    have hiiv : i.IV = i0.IV := by rw [hieq]
    have hiver : i.Version = i0.Version := by rw [hieq]
    have hkhne : i.KeyHash.length ≠ 0 := by
      rw [hikh]
      have := hlen (H (pwd ++ entropy.take 16))
      omega
    obtain ⟨hclean, hne⟩ := hashSeg_clean i0.HashAlgorithm hha
      (H (H (pwd ++ entropy.take 16))) (entropy.take 16) hkhb hsaltb
    have hshape := toLine_auth_shape i hiea hkhne
    rw [hikh, hisalt, hiha, himt] at hshape
    rw [hshape]
    rw [ParseInfo_frame F Cf pwd i0.MessageType hmt "NONE".toList _ (by decide) hclean
      (by decide) hne]
    rw [parseTail_auth F Cf i0.MessageType pwd (H (H (pwd ++ entropy.take 16)))
      (entropy.take 16) i0.HashAlgorithm H hha hH hkhb hsaltb]
    rw [if_pos rfl]
    refine ⟨_, rfl, ?_, ?_, ?_, ?_, ?_, ?_, ?_⟩ <;>
      simp [hiver, hver, himt, hiea, hiiv, hiv0, hiha, hikh, hisalt]
  · obtain ⟨H, c, hH, hcn, hieq⟩ :=
      SetPassword_ok_shape F Cf i0 pwd entropy i hpwd hea0 hsalt0 hiv0 hi
    obtain ⟨hbytes, hlen, hha⟩ := hashNew_ok_facts F hF i0.HashAlgorithm H hH
    have hkhb : ∀ b ∈ H (H (pwd ++ entropy.take 16)), b < 256 := hbytes _
    have hea123 : i0.EncryptionAlgorithm = 1 ∨ i0.EncryptionAlgorithm = 2 ∨
        i0.EncryptionAlgorithm = 3 := by
      rcases encryptionNew_ok_some Cf _ _ c hcn with ⟨h, _⟩ | ⟨h, _⟩ | ⟨h, _⟩
      · exact Or.inl h
      · exact Or.inr (Or.inl h)
      · exact Or.inr (Or.inr h)
    have hbs : c.blockSize = 8 ∨ c.blockSize = 16 := by
      rcases encryptionNew_ok_some Cf _ _ c hcn with ⟨_, hc⟩ | ⟨_, hc⟩ | ⟨_, hc⟩
      · rw [hc]; exact Or.inl (hCf.des_bs _)
      · rw [hc]; exact Or.inl (hCf.tdes_bs _)
      · rw [hc]; exact Or.inr (hCf.aes_bs _)
    have hiea : i.EncryptionAlgorithm = i0.EncryptionAlgorithm := by rw [hieq]
    have hikh : i.KeyHash = H (H (pwd ++ entropy.take 16)) := by rw [hieq]
    have hisalt : i.Salt = entropy.take 16 := by rw [hieq]
    have hiha : i.HashAlgorithm = i0.HashAlgorithm := by rw [hieq]
    have himt : i.MessageType = i0.MessageType := by rw [hieq]
    have hiver : i.Version = i0.Version := by rw [hieq]
    have hiIV : i.IV = (entropy.drop 16).take c.blockSize := by
      rw [hieq]
      simp only [hiv0, List.length_nil]
      rw [if_neg (by omega)]
    have hivlen : i.IV.length = c.blockSize := by
      rw [hiIV]
      simp only [List.length_take, List.length_drop, hent]
      omega
    have hivb : ∀ b ∈ i.IV, b < 256 := by
      rw [hiIV]
      intro b hb
      exact hentb b (List.drop_subset 16 entropy (List.take_subset _ _ hb))
    obtain ⟨hclean, hne⟩ := hashSeg_clean i0.HashAlgorithm hha
      (H (H (pwd ++ entropy.take 16))) (entropy.take 16) hkhb hsaltb
    have heaclean : cleanSeg (eaName i0.EncryptionAlgorithm ++ ':' :: bytesToHex i.IV) := by
      apply cleanSeg_append
      · rcases hea123 with h | h | h <;> rw [h] <;> decide
      · exact cleanSeg_cons _ _ (by decide) (bytesToHex_clean _ hivb)
    have heane : eaName i0.EncryptionAlgorithm ++ ':' :: bytesToHex i.IV ≠ [] := by
      intro hc
      rcases List.append_eq_nil.mp hc with ⟨hc1, _⟩
      rcases hea123 with h | h | h <;> rw [h] at hc1 <;> simp [eaName] at hc1
    have hienon : i.EncryptionAlgorithm ≠ 0 := by rw [hiea]; exact hea0
    have hshape := toLine_enc_shape i hienon
    rw [hikh, hisalt, hiha, himt, hiea] at hshape
    rw [hshape]
    rw [ParseInfo_frame F Cf pwd i0.MessageType hmt _ _ heaclean hclean heane hne]
    rw [parseTail_enc F Cf i0.MessageType pwd (H (H (pwd ++ entropy.take 16)))
      (entropy.take 16) i.IV i0.HashAlgorithm i0.EncryptionAlgorithm H hha hH hea123
      hkhb hsaltb hivb]
    rw [if_pos rfl]
    simp only [hcn]
    rw [if_neg (by rw [hivlen]; simp)]
    refine ⟨_, rfl, ?_, ?_, ?_, ?_, ?_, ?_, ?_⟩ <;>
      simp [hiver, hver, himt, hiea, hiha, hikh, hisalt]

theorem testHashFamily_good : GoodHashFamily testHashFamily :=
  { md5_len := fun _ => by simp [testHashFamily, constHash]
    sha1_len := fun _ => by simp [testHashFamily, constHash]
    sha256_len := fun _ => by simp [testHashFamily, constHash]
    sha512_len := fun _ => by simp [testHashFamily, constHash]
    md5_lt := fun _ b hb => by
      simp [testHashFamily, constHash, List.eq_of_mem_replicate hb]
    sha1_lt := fun _ b hb => by
      simp [testHashFamily, constHash, List.eq_of_mem_replicate hb]
    sha256_lt := fun _ b hb => by
      simp [testHashFamily, constHash, List.eq_of_mem_replicate hb]
    sha512_lt := fun _ b hb => by
      simp [testHashFamily, constHash, List.eq_of_mem_replicate hb] }

/-- Witness for the amended C3 at concrete inputs: AES with SHA256,
password bytes, explicit entropy. -/
theorem c3_amended_parse_toLine_witness :
    Info.SetPassword testHashFamily testCipherFamily c1i0 pwdBytes c1entropy = .ok c1out ∧
      (∃ j, ParseInfo testHashFamily testCipherFamily c1out.toLine pwdBytes = .ok j ∧
        j.Version = c1out.Version ∧ j.MessageType = c1out.MessageType ∧
        j.EncryptionAlgorithm = c1out.EncryptionAlgorithm ∧ j.IV = c1out.IV ∧
        j.HashAlgorithm = c1out.HashAlgorithm ∧ j.KeyHash = c1out.KeyHash ∧
        j.Salt = c1out.Salt) := by
  have hi : Info.SetPassword testHashFamily testCipherFamily c1i0 pwdBytes c1entropy =
      .ok c1out := by rfl
  exact ⟨hi, c3_amended_parse_toLine testHashFamily testHashFamily_good testCipherFamily
    testCipherFamily_good c1i0 pwdBytes c1entropy c1out (by decide) rfl
    (Or.inr (Or.inl rfl)) rfl rfl rfl (by decide) (by decide) hi⟩

/-- Counterexample to C3 as stated: an Info whose key material was
produced by SetPassword but whose Version field is empty serializes to a
GNTP/1.0 line, so the parsed record carries Version 1.0 and differs from
the original in the Version field. -/
theorem c3_counterexample :
    Info.SetPassword testHashFamily testCipherFamily c3i0 pwdBytes c1entropy = .ok c3out ∧
      (ParseInfo testHashFamily testCipherFamily c3out.toLine pwdBytes =
        .ok ⟨"1.0", "NOTIFY", 0, [], 0, List.replicate 16 1, List.range 16, none⟩) ∧
      ("1.0" : String) ≠ c3out.Version := by
  refine ⟨by rfl, by rfl, by decide⟩

theorem encryptionNew_error_kind (Cf : CipherFamily) (ea : Int) (k : List Nat) (e : GErr)
    (h : encryptionNew Cf ea k = .error e) : e = .keyLength ∨ e = .encryption := by
  by_cases h0 : ea = 0
  · rw [h0] at h
    simp [encryptionNew] at h
  · by_cases h1 : ea = 1
    · rw [h1, show encryptionNew Cf 1 k =
          (if k.length < 8 then .error .keyLength else .ok (some (Cf.desNew (k.take 8))))
          from rfl] at h
      split at h
      · exact Or.inl (Except.error.inj h).symm
      · simp at h
    · by_cases h2 : ea = 2
      · rw [h2, show encryptionNew Cf 2 k =
            (if k.length < 24 then .error .keyLength else .ok (some (Cf.tdesNew (k.take 24))))
            from rfl] at h
        split at h
        · exact Or.inl (Except.error.inj h).symm
        · simp at h
      · by_cases h3 : ea = 3
        · rw [h3, show encryptionNew Cf 3 k =
              (if k.length < 24 then .error .keyLength
               else .ok (some (Cf.aesNew (k.take 24)))) from rfl] at h
          split at h
          · exact Or.inl (Except.error.inj h).symm
          · simp at h
        · rw [show encryptionNew Cf ea k = .error .encryption from by
            unfold encryptionNew
            rw [if_neg h0, if_neg h1, if_neg h2, if_neg h3]] at h
          exact Or.inr (Except.error.inj h).symm

/-- C4: a successful SetPassword with a non-empty password derives
k = H(password || salt) and KeyHash = H(k) under the one configured hash,
with the salt being the 16 fresh entropy bytes when previously absent and
reused unchanged when present; and ParseInfo on an authenticated or an
encrypted line carrying a hash segment returns PasswordIncorrect exactly
when the recomputed H(H(password || salt)) differs from the transmitted
key hash. -/
theorem c4_key_derivation (F : HashFamily) (Cf : CipherFamily) (i0 : Info)
    (pwd entropy : List Nat) (i : Info) (hpwd : pwd ≠ [])
    (hi : Info.SetPassword F Cf i0 pwd entropy = .ok i)
    (mt : String)
    (hmt : mt = "REGISTER" ∨ mt = "NOTIFY" ∨ mt = "-OK" ∨ mt = "-ERROR" ∨
      mt = "-CALLBACK")
    (ha : Int) (hha : ha = 0 ∨ ha = 1 ∨ ha = 2 ∨ ha = 3)
    (H : List Nat → List Nat) (hH : hashNew F ha = .ok H)
    (kh salt : List Nat) (hkh : ∀ b ∈ kh, b < 256) (hsalt : ∀ b ∈ salt, b < 256)
    (pwd2 : List Nat) :
    (∃ H0, hashNew F i0.HashAlgorithm = .ok H0 ∧
      i.KeyHash = H0 (H0 (pwd ++ i.Salt)) ∧
      (i0.Salt = [] → 16 ≤ entropy.length → i.Salt = entropy.take 16 ∧ i.Salt.length = 16) ∧
      (i0.Salt ≠ [] → i.Salt = i0.Salt)) ∧
    (ParseInfo F Cf
        ("GNTP/1.0 ".toList ++ mt.toList ++ " ".toList ++ "NONE".toList ++ " ".toList ++
          (haName ha ++ ':' :: (bytesToHex kh ++ '.' :: bytesToHex salt))) pwd2 =
        .error .password ↔ H (H (pwd2 ++ salt)) ≠ kh) ∧
    (∀ ea iv, (ea = 1 ∨ ea = 2 ∨ ea = 3) → (∀ b ∈ iv, b < 256) →
      (ParseInfo F Cf
          ("GNTP/1.0 ".toList ++ mt.toList ++ " ".toList ++
            (eaName ea ++ ':' :: bytesToHex iv) ++ " ".toList ++
            (haName ha ++ ':' :: (bytesToHex kh ++ '.' :: bytesToHex salt))) pwd2 =
          .error .password ↔ H (H (pwd2 ++ salt)) ≠ kh)) := by
  obtain ⟨hclean, hne⟩ := hashSeg_clean ha hha kh salt hkh hsalt
  refine ⟨?_, ?_, ?_⟩
  · obtain ⟨H0, hH0, hs, hk, hfresh, hreuse⟩ :=
      SetPassword_keyhash F Cf i0 pwd entropy i hpwd hi
    refine ⟨H0, hH0, hk, ?_, hreuse⟩
    intro h0 h16
    refine ⟨?_, hfresh h0 h16⟩
    rw [hs, if_pos (by rw [h0]; rfl)]
  · rw [ParseInfo_frame F Cf pwd2 mt hmt "NONE".toList _ (by decide) hclean (by decide) hne,
      parseTail_auth F Cf mt pwd2 kh salt ha H hha hH hkh hsalt]
    by_cases heq : H (H (pwd2 ++ salt)) = kh
    · rw [if_pos heq]
      simp [heq]
    · rw [if_neg heq]
      simp [heq]
  · intro ea iv hea hiv
    have heaclean : cleanSeg (eaName ea ++ ':' :: bytesToHex iv) := by
      apply cleanSeg_append
      · rcases hea with rfl | rfl | rfl <;> decide
      · exact cleanSeg_cons _ _ (by decide) (bytesToHex_clean _ hiv)
    have heane : eaName ea ++ ':' :: bytesToHex iv ≠ [] := by
      intro hc
      rcases List.append_eq_nil.mp hc with ⟨hc1, _⟩
      rcases hea with rfl | rfl | rfl <;> simp [eaName] at hc1
    rw [ParseInfo_frame F Cf pwd2 mt hmt _ _ heaclean hclean heane hne,
      parseTail_enc F Cf mt pwd2 kh salt iv ha ea H hha hH hea hkh hsalt hiv]
    by_cases heq : H (H (pwd2 ++ salt)) = kh
    · rw [if_pos heq]
      cases hres : encryptionNew Cf ea (H (pwd2 ++ salt)) with
      | error e =>
        simp only [hres]
        rcases encryptionNew_error_kind Cf ea _ e hres with rfl | rfl <;> simp [heq]
      | ok oc =>
        cases oc with
        | none =>
          simp only [hres]
          simp [heq]
        | some c =>
          simp only [hres]
          by_cases hlen : iv.length ≠ c.blockSize
          · rw [if_pos hlen]
            simp [heq]
          · rw [if_neg hlen]
            simp [heq]
    · rw [if_neg heq]
      simp [heq]

/-- C7: notifier.Notify on an unregistered event returns the unknown-event
error with the template map unchanged; on a registered event it dispatches
a clone carrying the given title and body while the stored map — and hence
the stored template — is returned byte-identical. -/
theorem c7_notify_frame (ev : List (String × Notification)) (event title body : String) :
    (assocLookup ev event = none →
      notifierNotify ev event title body = .error .unknownEvent) ∧
    ∀ t, assocLookup ev event = some t →
      notifierNotify ev event title body =
        .ok ({ t with Title := title, Text := body }, ev) := by
  constructor
  · intro h
    simp [notifierNotify, h]
  · intro t h
    simp [notifierNotify, h]

/-- Witness for C7: a registered event is dispatched with the new title
and body and the map comes back unchanged; a missing event yields the
unknown-event error. -/
theorem c7_notify_frame_witness :
    assocLookup [("event", c7tmpl)] "event" = some c7tmpl ∧
      notifierNotify [("event", c7tmpl)] "event" "Title" "Body" =
        .ok ({ c7tmpl with Title := "Title", Text := "Body" }, [("event", c7tmpl)]) ∧
      assocLookup ([] : List (String × Notification)) "event" = none ∧
      notifierNotify [] "event" "Title" "Body" = .error .unknownEvent :=
  ⟨rfl, (c7_notify_frame [("event", c7tmpl)] "event" "Title" "Body").2 c7tmpl rfl,
   rfl, (c7_notify_frame [] "event" "Title" "Body").1 rfl⟩

/-- Counterexample to C9: an option entry under an unrecognized key is not
rejected — Register succeeds and simply ignores it. -/
theorem c9_counterexample :
    notifierRegister [] "event" .vnil [("custom:key", .vnil)] =
      .ok ([("event", baseTemplate "event" .vnil)], [baseTemplate "event" .vnil]) := by
  decide

/-- C9 amended: Register inspects only the four gntp-scoped keys.  Entries
under any other key are ignored (Register succeeds as if they were
absent); a present recognized key with a value of the wrong dynamic type
is rejected with a type-mismatch error naming the expected type. -/
theorem c9_amended_option_validation (ev : List (String × Notification)) (event : String)
    (icon : GoValue) (opts : List (String × GoValue)) :
    ((∀ p ∈ opts, p.1 ∉ gntpOptionKeys) →
      notifierRegister ev event icon opts =
        .ok (assocInsert ev event (baseTemplate event icon),
          (assocInsert ev event (baseTemplate event icon)).map Prod.snd)) ∧
    (∀ v, assocLookup opts "gntp:display-name" = some v → v.isString = false →
      notifierRegister ev event icon opts =
        .error (.typeMismatch "gntp:display-name" "string")) ∧
    (assocLookup opts "gntp:display-name" = none →
      ∀ v, assocLookup opts "gntp:enabled" = some v → v.isBool = false →
        notifierRegister ev event icon opts = .error (.typeMismatch "gntp:enabled" "bool")) ∧
    (assocLookup opts "gntp:display-name" = none →
      assocLookup opts "gntp:enabled" = none →
      ∀ v, assocLookup opts "gntp:sticky" = some v → v.isBool = false →
        notifierRegister ev event icon opts = .error (.typeMismatch "gntp:sticky" "bool")) ∧
    (assocLookup opts "gntp:display-name" = none →
      assocLookup opts "gntp:enabled" = none →
      assocLookup opts "gntp:sticky" = none →
      ∀ v, assocLookup opts "gntp:priority" = some v → v.isIntLike = false →
        notifierRegister ev event icon opts =
          .error (.typeMismatch "gntp:priority" "int")) := by
  refine ⟨?_, ?_, ?_, ?_, ?_⟩
  · intro hun
    have h1 : assocLookup opts "gntp:display-name" = none :=
      assocLookup_eq_none opts _ (fun p hp h => (hun p hp) (by rw [h]; simp [gntpOptionKeys]))
    have h2 : assocLookup opts "gntp:enabled" = none :=
      assocLookup_eq_none opts _ (fun p hp h => (hun p hp) (by rw [h]; simp [gntpOptionKeys]))
    have h3 : assocLookup opts "gntp:sticky" = none :=
      assocLookup_eq_none opts _ (fun p hp h => (hun p hp) (by rw [h]; simp [gntpOptionKeys]))
    have h4 : assocLookup opts "gntp:priority" = none :=
      assocLookup_eq_none opts _ (fun p hp h => (hun p hp) (by rw [h]; simp [gntpOptionKeys]))
    simp [notifierRegister, buildTemplate, applyDisplayName, applyEnabled, applySticky,
      applyPriority, h1, h2, h3, h4]
  · intro v hv hns
    have : applyDisplayName opts (baseTemplate event icon) =
        .error (.typeMismatch "gntp:display-name" "string") := by
      cases v <;> simp_all [applyDisplayName, GoValue.isString]
    simp [notifierRegister, buildTemplate, this]
  · intro h1 v hv hnb
    have : applyEnabled opts (baseTemplate event icon) =
        .error (.typeMismatch "gntp:enabled" "bool") := by
      cases v <;> simp_all [applyEnabled, GoValue.isBool]
    simp [notifierRegister, buildTemplate, applyDisplayName, h1, this]
  · intro h1 h2 v hv hnb
    have : ∀ n, applySticky opts n = .error (.typeMismatch "gntp:sticky" "bool") := by
      intro n
      cases v <;> simp_all [applySticky, GoValue.isBool]
    simp [notifierRegister, buildTemplate, applyDisplayName, applyEnabled, h1, h2, this]
  · intro h1 h2 h3 v hv hni
    have : ∀ n, applyPriority opts n = .error (.typeMismatch "gntp:priority" "int") := by
      intro n
      cases v <;> simp_all [applyPriority, GoValue.isIntLike]
    simp [notifierRegister, buildTemplate, applyDisplayName, applyEnabled, applySticky,
      h1, h2, h3, this]

/-- Witness for the amended C9: an unrecognized entry is ignored while a
float under gntp:priority is rejected naming int. -/
theorem c9_amended_option_validation_witness :
    notifierRegister [] "e" .vnil [("custom:key", .vnil)] =
      .ok ([("e", baseTemplate "e" .vnil)], [baseTemplate "e" .vnil]) ∧
      notifierRegister [] "e" .vnil [("gntp:priority", .vfloat64)] =
        .error (.typeMismatch "gntp:priority" "int") := by
  constructor
  · have h := (c9_amended_option_validation [] "e" .vnil [("custom:key", .vnil)]).1
      (by decide)
    simpa using h
  · exact (c9_amended_option_validation [] "e" .vnil
      [("gntp:priority", .vfloat64)]).2.2.2.2 rfl rfl rfl .vfloat64 rfl rfl

/-- C10: a successful Register stores the built template under the event
name, replacing any previous binding and leaving other events untouched,
and the REGISTER request it sends carries the template of every currently
registered event — the whole map, not only the new event. -/
theorem c10_register_sends_all (ev : List (String × Notification)) (event : String)
    (icon : GoValue) (opts : List (String × GoValue))
    (st2 : List (String × Notification)) (list : List Notification)
    (h : notifierRegister ev event icon opts = .ok (st2, list)) :
    ∃ n, buildTemplate event icon opts = .ok n ∧
      n.Name = event ∧ n.Icon = icon ∧
      st2 = assocInsert ev event n ∧
      assocLookup st2 event = some n ∧
      (∀ e, e ≠ event → assocLookup st2 e = assocLookup ev e) ∧
      list = st2.map Prod.snd ∧
      ∀ e t, assocLookup st2 e = some t → t ∈ list := by
  unfold notifierRegister at h
  split at h
  · simp at h
  · rename_i n hb
    simp only [Except.ok.injEq, Prod.mk.injEq] at h
    obtain ⟨hst, hlist⟩ := h
    obtain ⟨hn1, hn2⟩ := buildTemplate_preserves event icon opts n hb
    refine ⟨n, hb, hn1, hn2, hst.symm, ?_, ?_, ?_, ?_⟩
    · rw [← hst]
      exact assocLookup_insert_self ev event n
    · intro e he
      rw [← hst]
      exact assocLookup_insert_ne ev event e n he
    · rw [← hlist, ← hst]
    · intro e t ht
      rw [← hlist]
      rw [← hst] at ht
      exact mem_map_snd_of_lookup _ e t ht

/-- Witness for C10: registering a second event keeps the first and the
sent list holds both templates. -/
theorem c10_register_sends_all_witness :
    notifierRegister [("old", c7tmpl)] "event" .vnil [] =
      .ok ([("old", c7tmpl), ("event", baseTemplate "event" .vnil)],
        [c7tmpl, baseTemplate "event" .vnil]) ∧
      ∃ n, buildTemplate "event" .vnil [] = .ok n ∧
        n.Name = "event" ∧ n.Icon = .vnil ∧
        [("old", c7tmpl), ("event", baseTemplate "event" .vnil)] =
          assocInsert [("old", c7tmpl)] "event" n ∧
        assocLookup [("old", c7tmpl), ("event", baseTemplate "event" .vnil)] "event" = some n ∧
        (∀ e, e ≠ "event" →
          assocLookup [("old", c7tmpl), ("event", baseTemplate "event" .vnil)] e =
            assocLookup [("old", c7tmpl)] e) ∧
        [c7tmpl, baseTemplate "event" .vnil] =
          ([("old", c7tmpl), ("event", baseTemplate "event" .vnil)]).map Prod.snd ∧
        ∀ e t, assocLookup [("old", c7tmpl), ("event", baseTemplate "event" .vnil)] e = some t →
          t ∈ [c7tmpl, baseTemplate "event" .vnil] := by
  have hreg : notifierRegister [("old", c7tmpl)] "event" .vnil [] =
      .ok ([("old", c7tmpl), ("event", baseTemplate "event" .vnil)],
        [c7tmpl, baseTemplate "event" .vnil]) := by decide
  exact ⟨hreg, c10_register_sends_all [("old", c7tmpl)] "event" .vnil []
    [("old", c7tmpl), ("event", baseTemplate "event" .vnil)]
    [c7tmpl, baseTemplate "event" .vnil] hreg⟩

/-- Witness for C4 at concrete inputs: SHA256 derivation with fresh salt,
and the password check on an explicit authenticated line. -/
theorem c4_key_derivation_witness :
    Info.SetPassword testHashFamily testCipherFamily c1i0 pwdBytes c1entropy = .ok c1out ∧
      c1out.KeyHash =
        testHashFamily.sha256 (testHashFamily.sha256 (pwdBytes ++ c1out.Salt)) ∧
      c1out.Salt = c1entropy.take 16 ∧ c1out.Salt.length = 16 ∧
      (ParseInfo testHashFamily testCipherFamily
          ("GNTP/1.0 ".toList ++ ("NOTIFY" : String).toList ++ " ".toList ++
            "NONE".toList ++ " ".toList ++
            (haName 2 ++ ':' :: (bytesToHex (List.replicate 32 1) ++
              '.' :: bytesToHex [1, 2, 3]))) pwdBytes = .error .password ↔
        testHashFamily.sha256 (testHashFamily.sha256 (pwdBytes ++ [1, 2, 3])) ≠
          List.replicate 32 1) := by
  have hi : Info.SetPassword testHashFamily testCipherFamily c1i0 pwdBytes c1entropy =
      .ok c1out := by rfl
  have main := c4_key_derivation testHashFamily testCipherFamily c1i0 pwdBytes c1entropy
    c1out (by decide) hi "NOTIFY" (Or.inr (Or.inl rfl)) 2
    (Or.inr (Or.inr (Or.inl rfl))) testHashFamily.sha256 rfl (List.replicate 32 1)
    [1, 2, 3] (fun b hb => by simp [List.eq_of_mem_replicate hb]) (by decide) pwdBytes
  obtain ⟨⟨H0, hH0, hk, hfresh, _⟩, hauth, _⟩ := main
  have hH0e : H0 = testHashFamily.sha256 := by
    have h : hashNew testHashFamily c1i0.HashAlgorithm = .ok testHashFamily.sha256 := rfl
    rw [h] at hH0
    exact (Except.ok.inj hH0).symm
  obtain ⟨hs, hsl⟩ := hfresh rfl (by decide)
  exact ⟨hi, by rw [hk, hH0e], hs, hsl, hauth⟩

set_option maxRecDepth 40000 in
/-- C5: EncryptionAlgorithm.New truncates the derived key to the
algorithm's key size — key[:8] for DES, key[:24] for 3DES and for AES —
and rejects a shorter key with ErrKeyTooShort (keyLength); in particular
ParseInfo of the spec's test line under real MD5 with password "password"
fails with ErrKeyTooShort for every cipher family: the derived key,
an MD5 digest, has 16 bytes where AES demands 24, and the line's key
hash matches the MD5 double digest so the password check passes first. -/
theorem c5_key_truncation (Cf : CipherFamily) (key : List Nat) :
    ((8 ≤ key.length → encryptionNew Cf 1 key = .ok (some (Cf.desNew (key.take 8)))) ∧
      (key.length < 8 → encryptionNew Cf 1 key = .error .keyLength)) ∧
    ((24 ≤ key.length → encryptionNew Cf 2 key = .ok (some (Cf.tdesNew (key.take 24)))) ∧
      (key.length < 24 → encryptionNew Cf 2 key = .error .keyLength)) ∧
    ((24 ≤ key.length → encryptionNew Cf 3 key = .ok (some (Cf.aesNew (key.take 24)))) ∧
      (key.length < 24 → encryptionNew Cf 3 key = .error .keyLength)) ∧
    md5Sum (md5Sum (pwdBytes ++ c5salt)) = c5kh ∧
    (md5Sum (pwdBytes ++ c5salt)).length = 16 ∧
    (∀ Cf2 : CipherFamily, ParseInfo md5OnlyFamily Cf2 c5line pwdBytes =
      .error .keyLength) := by
  have e1 : encryptionNew Cf 1 key =
      if key.length < 8 then .error .keyLength
      else .ok (some (Cf.desNew (key.take 8))) := rfl
  have e2 : encryptionNew Cf 2 key =
      if key.length < 24 then .error .keyLength
      else .ok (some (Cf.tdesNew (key.take 24))) := rfl
  have e3 : encryptionNew Cf 3 key =
      if key.length < 24 then .error .keyLength
      else .ok (some (Cf.aesNew (key.take 24))) := rfl
  refine ⟨⟨?_, ?_⟩, ⟨?_, ?_⟩, ⟨?_, ?_⟩, by rfl, by rfl, fun Cf2 => by rfl⟩
  · intro h
    rw [e1, if_neg (Nat.not_lt.mpr h)]
  · intro h
    rw [e1, if_pos h]
  · intro h
    rw [e2, if_neg (Nat.not_lt.mpr h)]
  · intro h
    rw [e2, if_pos h]
  · intro h
    rw [e3, if_neg (Nat.not_lt.mpr h)]
  · intro h
    rw [e3, if_pos h]

/-- Witness for C5: truncation and rejection at concrete keys — a 10-byte
key passes DES truncated to 8 but fails 3DES and AES; a 30-byte key passes
AES truncated to 24 — and the spec's test line parsed with the concrete
cipher family fails with the key-length error. -/
theorem c5_key_truncation_witness :
    encryptionNew testCipherFamily 1 (List.range 10) =
      .ok (some (testCipherFamily.desNew ((List.range 10).take 8))) ∧
    encryptionNew testCipherFamily 2 (List.range 10) = .error .keyLength ∧
    encryptionNew testCipherFamily 3 (List.range 10) = .error .keyLength ∧
    encryptionNew testCipherFamily 3 (List.range 30) =
      .ok (some (testCipherFamily.aesNew ((List.range 30).take 24))) ∧
    ParseInfo md5OnlyFamily testCipherFamily c5line pwdBytes = .error .keyLength :=
  ⟨(c5_key_truncation testCipherFamily (List.range 10)).1.1 (by decide),
   (c5_key_truncation testCipherFamily (List.range 10)).2.1.2 (by decide),
   (c5_key_truncation testCipherFamily (List.range 10)).2.2.1.2 (by decide),
   (c5_key_truncation testCipherFamily (List.range 30)).2.2.1.1 (by decide),
   (c5_key_truncation testCipherFamily (List.range 30)).2.2.2.2.2 testCipherFamily⟩

end GoNotify
